import Mathlib

/-!
Shallow embedding of the CHIP-8 interpreter core of catemuhdr.cpp
(class Chip8: Reset, LoadROM, Cycle, UpdateTimers and the per-class
opcode handlers).  Machine integers become Nat with explicit reduction
modulo 2^8, 2^12 or 2^16 where the C++ unsigned types wrap; arrays become
lists read with List.getD (out-of-range reads yield the default, matching
a total embedding of the C++ array accesses).
-/

namespace CatsChip8

def MEMORY_SIZE : Nat := 4096
def START_ADDR : Nat := 0x200
def FONTSET_ADDR : Nat := 0x000
def FONTSET_SIZE : Nat := 80
def DISPLAY_WIDTH : Nat := 64
def DISPLAY_HEIGHT : Nat := 32

def fontset : List Nat :=
  [0xF0, 0x90, 0x90, 0x90, 0xF0,
   0x20, 0x60, 0x20, 0x20, 0x70,
   0xF0, 0x10, 0xF0, 0x80, 0xF0,
   0xF0, 0x10, 0xF0, 0x10, 0xF0,
   0x90, 0x90, 0xF0, 0x10, 0x10,
   0xF0, 0x80, 0xF0, 0x10, 0xF0,
   0xF0, 0x80, 0xF0, 0x90, 0xF0,
   0xF0, 0x10, 0x20, 0x40, 0x40,
   0xF0, 0x90, 0xF0, 0x90, 0xF0,
   0xF0, 0x90, 0xF0, 0x10, 0xF0,
   0xF0, 0x90, 0xF0, 0x90, 0x90,
   0xE0, 0x90, 0xE0, 0x90, 0xE0,
   0xF0, 0x80, 0x80, 0x80, 0xF0,
   0xE0, 0x90, 0x90, 0x90, 0xE0,
   0xF0, 0x80, 0xF0, 0x80, 0xF0,
   0xF0, 0x80, 0xF0, 0x80, 0x80]

structure Chip8 where
  memory : List Nat
  V : List Nat
  I : Nat
  pc : Nat
  sp : Nat
  stack : List Nat
  delay_timer : Nat
  sound_timer : Nat
  keypad : List Bool
  display : List Nat
  drawFlag : Bool
deriving Repr, DecidableEq

/-- Sequential byte store: models writing a byte sequence into memory at
increasing addresses (memcpy / file.read into `memory[a]`). -/
def writeBytes (mem : List Nat) (a : Nat) : List Nat → List Nat
  | [] => mem
  | b :: bs => writeBytes (mem.set a b) (a + 1) bs

/-- `Chip8::Reset`: zero all state, copy the font table to `FONTSET_ADDR`,
program counter to `START_ADDR`. -/
def resetState : Chip8 :=
  { memory := writeBytes (List.replicate MEMORY_SIZE 0) FONTSET_ADDR fontset
    V := List.replicate 16 0
    I := 0
    pc := START_ADDR
    sp := 0
    stack := List.replicate 16 0
    delay_timer := 0
    sound_timer := 0
    keypad := List.replicate 16 false
    display := List.replicate (DISPLAY_WIDTH * DISPLAY_HEIGHT) 0
    drawFlag := false }

def Reset (_s : Chip8) : Chip8 := resetState

inductive LoadError where
  | RomTooLarge
deriving Repr, DecidableEq

/-- `Chip8::LoadROM` with the file contents abstracted to the byte list
`image`: Reset first, reject an image larger than
`MEMORY_SIZE - START_ADDR` leaving the reset state, otherwise copy the
image to `START_ADDR`. -/
def LoadROM (s : Chip8) (image : List Nat) : Chip8 × Option LoadError :=
  let r := Reset s
  if image.length > MEMORY_SIZE - START_ADDR then
    (r, some LoadError.RomTooLarge)
  else
    ({ r with memory := writeBytes r.memory START_ADDR image }, none)

/-- `Chip8::UpdateTimers`. -/
def UpdateTimers (s : Chip8) : Chip8 :=
  let s1 := if s.delay_timer > 0 then { s with delay_timer := s.delay_timer - 1 } else s
  if s1.sound_timer > 0 then { s1 with sound_timer := s1.sound_timer - 1 } else s1

def Opcode0xxx (s : Chip8) (opcode : Nat) : Chip8 :=
  if opcode = 0x00E0 then
    { s with display := List.replicate (DISPLAY_WIDTH * DISPLAY_HEIGHT) 0, drawFlag := true }
  else if opcode = 0x00EE then
    let sp1 := (s.sp + 255) % 256
    { s with sp := sp1, pc := s.stack.getD sp1 0 }
  else s

def Opcode1xxx (s : Chip8) (addr : Nat) : Chip8 := { s with pc := addr }

def Opcode2xxx (s : Chip8) (addr : Nat) : Chip8 :=
  { s with stack := s.stack.set s.sp s.pc, sp := (s.sp + 1) % 256, pc := addr }

def Opcode3xxx (s : Chip8) (reg val : Nat) : Chip8 :=
  if s.V.getD reg 0 = val then { s with pc := (s.pc + 2) % 65536 } else s

def Opcode4xxx (s : Chip8) (reg val : Nat) : Chip8 :=
  if s.V.getD reg 0 ≠ val then { s with pc := (s.pc + 2) % 65536 } else s

def Opcode5xxx (s : Chip8) (regX regY : Nat) : Chip8 :=
  if s.V.getD regX 0 = s.V.getD regY 0 then { s with pc := (s.pc + 2) % 65536 } else s

def Opcode6xxx (s : Chip8) (reg val : Nat) : Chip8 :=
  { s with V := s.V.set reg val }

def Opcode7xxx (s : Chip8) (reg val : Nat) : Chip8 :=
  { s with V := s.V.set reg ((s.V.getD reg 0 + val) % 256) }

def Opcode8xxx (s : Chip8) (regX regY nib : Nat) : Chip8 :=
  match nib with
  | 0x0 => { s with V := s.V.set regX (s.V.getD regY 0) }
  | 0x1 => { s with V := s.V.set regX (s.V.getD regX 0 ||| s.V.getD regY 0) }
  | 0x2 => { s with V := s.V.set regX (s.V.getD regX 0 &&& s.V.getD regY 0) }
  | 0x3 => { s with V := s.V.set regX (s.V.getD regX 0 ^^^ s.V.getD regY 0) }
  | 0x4 =>
    let sum := s.V.getD regX 0 + s.V.getD regY 0
    let V1 := s.V.set 0xF (if sum > 0xFF then 1 else 0)
    { s with V := V1.set regX (sum % 256) }
  | 0x5 =>
    let V1 := s.V.set 0xF (if s.V.getD regX 0 > s.V.getD regY 0 then 1 else 0)
    { s with V := V1.set regX ((V1.getD regX 0 + 256 - V1.getD regY 0) % 256) }
  | 0x6 =>
    let V1 := s.V.set 0xF (s.V.getD regY 0 % 2)
    { s with V := V1.set regX (V1.getD regY 0 / 2) }
  | 0x7 =>
    let V1 := s.V.set 0xF (if s.V.getD regY 0 > s.V.getD regX 0 then 1 else 0)
    { s with V := V1.set regX ((V1.getD regY 0 + 256 - V1.getD regX 0) % 256) }
  | 0xE =>
    let V1 := s.V.set 0xF (s.V.getD regY 0 / 128 % 2)
    { s with V := V1.set regX (V1.getD regY 0 * 2 % 256) }
  | _ => s

def Opcode9xxx (s : Chip8) (regX regY : Nat) : Chip8 :=
  if s.V.getD regX 0 ≠ s.V.getD regY 0 then { s with pc := (s.pc + 2) % 65536 } else s

def OpcodeAxxx (s : Chip8) (addr : Nat) : Chip8 := { s with I := addr }

def OpcodeBxxx (s : Chip8) (addr : Nat) : Chip8 :=
  { s with pc := (addr + s.V.getD 0 0) % 65536 }

def OpcodeCxxx (s : Chip8) (reg val rnd : Nat) : Chip8 :=
  { s with V := s.V.set reg ((rnd % 256) &&& val) }

/-- Inner column loop of `Chip8::OpcodeDxxx`: `yr` is the target row
`y + row`; breaks out as soon as `x + col` leaves the display. -/
def drawCols (x yr sb : Nat) (col : Nat) (disp : List Nat) (vf : Nat) :
    List Nat × Nat :=
  if col < 8 then
    if DISPLAY_WIDTH ≤ x + col then (disp, vf)
    else
      let sprite_pixel := sb / 2 ^ (7 - col) % 2
      let idx := yr * DISPLAY_WIDTH + (x + col)
      if sprite_pixel ≠ 0 then
        let vf1 := if disp.getD idx 0 = 1 then 1 else vf
        drawCols x yr sb (col + 1) (disp.set idx (disp.getD idx 0 ^^^ 1)) vf1
      else drawCols x yr sb (col + 1) disp vf
  else (disp, vf)
termination_by 8 - col

/-- Outer row loop of `Chip8::OpcodeDxxx`: breaks out as soon as `y + row`
leaves the display; the sprite byte of row `row` is `memory[I + row]`. -/
def drawRows (mem : List Nat) (Ival x y : Nat) (row nib : Nat)
    (disp : List Nat) (vf : Nat) : List Nat × Nat :=
  if row < nib then
    if DISPLAY_HEIGHT ≤ y + row then (disp, vf)
    else
      let sb := mem.getD (Ival + row) 0
      let p := drawCols x (y + row) sb 0 disp vf
      drawRows mem Ival x y (row + 1) nib p.1 p.2
  else (disp, vf)
termination_by nib - row

def OpcodeDxxx (s : Chip8) (regX regY nib : Nat) : Chip8 :=
  let x := s.V.getD regX 0 % DISPLAY_WIDTH
  let y := s.V.getD regY 0 % DISPLAY_HEIGHT
  let p := drawRows s.memory s.I x y 0 nib s.display 0
  { s with V := s.V.set 0xF p.2, display := p.1, drawFlag := true }

def OpcodeExxx (s : Chip8) (reg nib : Nat) : Chip8 :=
  if nib = 0x9E ∧ s.keypad.getD (s.V.getD reg 0) false = true then
    { s with pc := (s.pc + 2) % 65536 }
  else if nib = 0xA1 ∧ s.keypad.getD (s.V.getD reg 0) false = false then
    { s with pc := (s.pc + 2) % 65536 }
  else s

/-- The ascending scan of the 16 keypad entries in the `0xFX0A` handler,
returning the first set index. -/
def findFirstKey (kp : List Bool) (i : Nat) : Option Nat :=
  if i < 16 then
    if kp.getD i false = true then some i else findFirstKey kp (i + 1)
  else none
termination_by 16 - i

/-- The `0xFX55` store loop: `memory[I + i] = V[i]` for `i` from 0 to
`reg` inclusive. -/
def storeRegs (mem V : List Nat) (Ival i reg : Nat) : List Nat :=
  if i ≤ reg then storeRegs (mem.set (Ival + i) (V.getD i 0)) V Ival (i + 1) reg
  else mem
termination_by reg + 1 - i

/-- The `0xFX65` load loop: `V[i] = memory[I + i]` for `i` from 0 to
`reg` inclusive. -/
def loadRegs (V mem : List Nat) (Ival i reg : Nat) : List Nat :=
  if i ≤ reg then loadRegs (V.set i (mem.getD (Ival + i) 0)) mem Ival (i + 1) reg
  else V
termination_by reg + 1 - i

def OpcodeFxxx (s : Chip8) (reg nib : Nat) : Chip8 :=
  if nib = 0x07 then { s with V := s.V.set reg s.delay_timer }
  else if nib = 0x0A then
    match findFirstKey s.keypad 0 with
    | some i => { s with V := s.V.set reg i }
    | none => { s with pc := (s.pc + 65534) % 65536 }
  else if nib = 0x15 then { s with delay_timer := s.V.getD reg 0 }
  else if nib = 0x18 then { s with sound_timer := s.V.getD reg 0 }
  else if nib = 0x1E then { s with I := (s.I + s.V.getD reg 0) % 65536 }
  else if nib = 0x29 then { s with I := (FONTSET_ADDR + s.V.getD reg 0 * 5) % 65536 }
  else if nib = 0x33 then
    let vx := s.V.getD reg 0
    let m2 := ((s.memory.set s.I (vx / 100)).set (s.I + 1) (vx / 10 % 10)).set (s.I + 2) (vx % 10)
    { s with memory := m2 }
  else if nib = 0x55 then { s with memory := storeRegs s.memory s.V s.I 0 reg }
  else if nib = 0x65 then { s with V := loadRegs s.V s.memory s.I 0 reg }
  else s

/-- The two-byte big-endian instruction word fetched at the program
counter. -/
def fetch (s : Chip8) : Nat :=
  s.memory.getD s.pc 0 * 256 + s.memory.getD (s.pc + 1) 0

/-- `Chip8::Cycle`: fetch, advance the program counter by 2 (as a 16-bit
register), decode the fields and dispatch on the top nibble.  `rnd` is
the value of the `rand()` call consumed by `0xCXNN`. -/
def Cycle (s0 : Chip8) (rnd : Nat) : Chip8 :=
  let opcode := fetch s0
  let s := { s0 with pc := (s0.pc + 2) % 65536 }
  let regX := opcode / 256 % 16
  let regY := opcode / 16 % 16
  let nib4 := opcode % 16
  let addr := opcode % 4096
  let val := opcode % 256
  match opcode / 4096 % 16 with
  | 0x0 => Opcode0xxx s opcode
  | 0x1 => Opcode1xxx s addr
  | 0x2 => Opcode2xxx s addr
  | 0x3 => Opcode3xxx s regX val
  | 0x4 => Opcode4xxx s regX val
  | 0x5 => Opcode5xxx s regX regY
  | 0x6 => Opcode6xxx s regX val
  | 0x7 => Opcode7xxx s regX val
  | 0x8 => Opcode8xxx s regX regY nib4
  | 0x9 => Opcode9xxx s regX regY
  | 0xA => OpcodeAxxx s addr
  | 0xB => OpcodeBxxx s addr
  | 0xC => OpcodeCxxx s regX val rnd
  | 0xD => OpcodeDxxx s regX regY nib4
  | 0xE => OpcodeExxx s regX val
  | 0xF => OpcodeFxxx s regX val
  | _ => s

/-- Well-formed machine states: the list fields have the lengths of the
C++ arrays and every stored value fits its C++ integer type (display
cells hold only 0 or 1, as the draw and clear code maintains). -/
def Wf (s : Chip8) : Prop :=
  s.memory.length = MEMORY_SIZE ∧ (∀ b ∈ s.memory, b < 256) ∧
  s.V.length = 16 ∧ (∀ b ∈ s.V, b < 256) ∧
  s.I < 65536 ∧ s.pc < 65536 ∧ s.sp < 256 ∧
  s.stack.length = 16 ∧ (∀ a ∈ s.stack, a < 65536) ∧
  s.keypad.length = 16 ∧
  s.display.length = DISPLAY_WIDTH * DISPLAY_HEIGHT ∧
  (∀ d ∈ s.display, d < 2) ∧
  s.delay_timer < 256 ∧ s.sound_timer < 256

instance (s : Chip8) : Decidable (Wf s) := by
  unfold Wf; infer_instance

/-! ## General helper lemmas -/

theorem getD_set_self {α : Type} (l : List α) (i : Nat) (a d : α)
    (h : i < l.length) : (l.set i a).getD i d = a := by
  simp [List.getD, List.getElem?_set, h]

theorem getD_set_ne {α : Type} (l : List α) (i j : Nat) (a d : α)
    (h : i ≠ j) : (l.set i a).getD j d = l.getD j d := by
  simp [List.getD, List.getElem?_set, h]

theorem writeBytes_length (bs mem : List Nat) (a : Nat) :
    (writeBytes mem a bs).length = mem.length := by
  induction bs generalizing mem a with
  | nil => rfl
  | cons b bs ih => rw [writeBytes, ih]; simp

theorem getD_writeBytes_lt (bs mem : List Nat) (a j d : Nat) (h : j < a) :
    (writeBytes mem a bs).getD j d = mem.getD j d := by
  induction bs generalizing mem a with
  | nil => rfl
  | cons b bs ih =>
    rw [writeBytes, ih _ (a + 1) (by omega), getD_set_ne _ _ _ _ _ (by omega)]

theorem getD_writeBytes_ge (bs mem : List Nat) (a j d : Nat)
    (h : a + bs.length ≤ j) :
    (writeBytes mem a bs).getD j d = mem.getD j d := by
  induction bs generalizing mem a with
  | nil => rfl
  | cons b bs ih =>
    simp only [List.length_cons] at h
    rw [writeBytes, ih _ (a + 1) (by omega), getD_set_ne _ _ _ _ _ (by omega)]

theorem getD_writeBytes_inside (bs : List Nat) (mem : List Nat) (a i d : Nat)
    (hi : i < bs.length) (hle : a + bs.length ≤ mem.length) :
    (writeBytes mem a bs).getD (a + i) d = bs.getD i d := by
  induction bs generalizing mem a i with
  | nil => simp at hi
  | cons b bs ih =>
    simp only [List.length_cons] at hi hle
    cases i with
    | zero =>
      rw [writeBytes, getD_writeBytes_lt _ _ _ _ _ (by omega)]
      exact getD_set_self _ _ _ _ (by omega)
    | succ i =>
      have : a + (i + 1) = (a + 1) + i := by omega
      rw [writeBytes, this, ih _ _ _ (by omega) (by simp; omega)]
      rfl

theorem mem_writeBytes_bound (bs mem : List Nat) (a c : Nat)
    (hm : ∀ x ∈ mem, x < c) (hb : ∀ x ∈ bs, x < c) :
    ∀ x ∈ writeBytes mem a bs, x < c := by
  induction bs generalizing mem a with
  | nil => exact hm
  | cons b bs ih =>
    refine ih _ _ ?_ (fun x hx => hb x (List.mem_cons_of_mem _ hx))
    intro x hx
    rcases List.mem_or_eq_of_mem_set hx with h | h
    · exact hm x h
    · rw [h]; exact hb b (List.mem_cons_self _ _)

theorem resetState_memory_length : resetState.memory.length = 4096 := by
  show (writeBytes (List.replicate MEMORY_SIZE 0) FONTSET_ADDR fontset).length = 4096
  rw [writeBytes_length, List.length_replicate]
  rfl

theorem resetState_memory_bound : ∀ x ∈ resetState.memory, x < 256 := by
  refine mem_writeBytes_bound _ _ _ _ (fun x hx => ?_) (by decide)
  rw [List.eq_of_mem_replicate hx]; omega

/-- Test fixture: the reset state with a program image loaded at
`START_ADDR` and chosen register file, keypad and index register. -/
def progState (prog regs : List Nat) (kp : List Bool) (Ival : Nat) : Chip8 :=
  { resetState with
    memory := writeBytes resetState.memory START_ADDR prog
    V := regs
    keypad := kp
    I := Ival }

theorem Wf_progState (prog regs : List Nat) (kp : List Bool) (Ival : Nat)
    (hp : ∀ b ∈ prog, b < 256) (hr : regs.length = 16)
    (hrb : ∀ b ∈ regs, b < 256) (hk : kp.length = 16) (hI : Ival < 65536) :
    Wf (progState prog regs kp Ival) := by
  have hdisp : (progState prog regs kp Ival).display = List.replicate 2048 0 := rfl
  have hstack : (progState prog regs kp Ival).stack = List.replicate 16 0 := rfl
  refine ⟨?_, ?_, hr, hrb, hI, ?_, ?_, ?_, ?_, hk, ?_, ?_, ?_, ?_⟩
  · show (writeBytes resetState.memory START_ADDR prog).length = MEMORY_SIZE
    rw [writeBytes_length, resetState_memory_length]; rfl
  · exact mem_writeBytes_bound prog resetState.memory START_ADDR 256
      resetState_memory_bound hp
  · show (0x200 : Nat) < 65536; decide
  · show (0 : Nat) < 256; decide
  · rw [hstack]; rfl
  · rw [hstack]; intro x hx; rw [List.eq_of_mem_replicate hx]; omega
  · rw [hdisp, List.length_replicate]; rfl
  · rw [hdisp]; intro x hx; rw [List.eq_of_mem_replicate hx]; omega
  · show (0 : Nat) < 256; decide
  · show (0 : Nat) < 256; decide

/-- The reset state is well-formed. -/
theorem Wf_resetState : Wf resetState :=
  Wf_progState [] (List.replicate 16 0) (List.replicate 16 false) 0
    (by simp) rfl (by decide) rfl (by omega)

theorem progState_memory_getD (prog regs : List Nat) (kp : List Bool)
    (Ival i : Nat) (hi : i < prog.length) (hlen : prog.length ≤ 3584) :
    (progState prog regs kp Ival).memory.getD (0x200 + i) 0 = prog.getD i 0 := by
  refine getD_writeBytes_inside _ _ _ _ _ hi ?_
  rw [resetState_memory_length]
  have hSA : START_ADDR = 0x200 := rfl
  omega

theorem fetch_progState (prog regs : List Nat) (kp : List Bool) (Ival : Nat)
    (h2 : 2 ≤ prog.length) (hlen : prog.length ≤ 3584) :
    fetch (progState prog regs kp Ival) =
      prog.getD 0 0 * 256 + prog.getD 1 0 := by
  have g0 := progState_memory_getD prog regs kp Ival 0 (by omega) hlen
  have g1 := progState_memory_getD prog regs kp Ival 1 (by omega) hlen
  norm_num at g0 g1
  have hpc : (progState prog regs kp Ival).pc = 0x200 := rfl
  unfold fetch
  rw [hpc]
  norm_num [g0, g1]

/-! ## Dispatch lemmas: one `Cycle` step with a given instruction class -/

theorem cycle_class0 (s : Chip8) (rnd w : Nat) (hw : w < 4096)
    (hf : fetch s = w) :
    Cycle s rnd = Opcode0xxx { s with pc := (s.pc + 2) % 65536 } w := by
  have e1 : w / 4096 % 16 = 0 := by omega
  simp only [Cycle, hf, e1]

theorem cycle_class5 (s : Chip8) (rnd X Y n4 : Nat) (hX : X < 16) (hY : Y < 16)
    (hn : n4 < 16) (hf : fetch s = 0x5000 + X * 256 + Y * 16 + n4) :
    Cycle s rnd = Opcode5xxx { s with pc := (s.pc + 2) % 65536 } X Y := by
  have e1 : (0x5000 + X * 256 + Y * 16 + n4) / 4096 % 16 = 5 := by omega
  have e2 : (0x5000 + X * 256 + Y * 16 + n4) / 256 % 16 = X := by omega
  have e3 : (0x5000 + X * 256 + Y * 16 + n4) / 16 % 16 = Y := by omega
  simp only [Cycle, hf, e1, e2, e3]

theorem cycle_class8 (s : Chip8) (rnd X Y n4 : Nat) (hX : X < 16) (hY : Y < 16)
    (hn : n4 < 16) (hf : fetch s = 0x8000 + X * 256 + Y * 16 + n4) :
    Cycle s rnd = Opcode8xxx { s with pc := (s.pc + 2) % 65536 } X Y n4 := by
  have e1 : (0x8000 + X * 256 + Y * 16 + n4) / 4096 % 16 = 8 := by omega
  have e2 : (0x8000 + X * 256 + Y * 16 + n4) / 256 % 16 = X := by omega
  have e3 : (0x8000 + X * 256 + Y * 16 + n4) / 16 % 16 = Y := by omega
  have e4 : (0x8000 + X * 256 + Y * 16 + n4) % 16 = n4 := by omega
  simp only [Cycle, hf, e1, e2, e3, e4]

theorem cycle_class9 (s : Chip8) (rnd X Y n4 : Nat) (hX : X < 16) (hY : Y < 16)
    (hn : n4 < 16) (hf : fetch s = 0x9000 + X * 256 + Y * 16 + n4) :
    Cycle s rnd = Opcode9xxx { s with pc := (s.pc + 2) % 65536 } X Y := by
  have e1 : (0x9000 + X * 256 + Y * 16 + n4) / 4096 % 16 = 9 := by omega
  have e2 : (0x9000 + X * 256 + Y * 16 + n4) / 256 % 16 = X := by omega
  have e3 : (0x9000 + X * 256 + Y * 16 + n4) / 16 % 16 = Y := by omega
  simp only [Cycle, hf, e1, e2, e3]

theorem cycle_classD (s : Chip8) (rnd X Y n4 : Nat) (hX : X < 16) (hY : Y < 16)
    (hn : n4 < 16) (hf : fetch s = 0xD000 + X * 256 + Y * 16 + n4) :
    Cycle s rnd = OpcodeDxxx { s with pc := (s.pc + 2) % 65536 } X Y n4 := by
  have e1 : (0xD000 + X * 256 + Y * 16 + n4) / 4096 % 16 = 13 := by omega
  have e2 : (0xD000 + X * 256 + Y * 16 + n4) / 256 % 16 = X := by omega
  have e3 : (0xD000 + X * 256 + Y * 16 + n4) / 16 % 16 = Y := by omega
  have e4 : (0xD000 + X * 256 + Y * 16 + n4) % 16 = n4 := by omega
  simp only [Cycle, hf, e1, e2, e3, e4]

theorem cycle_classE (s : Chip8) (rnd X v : Nat) (hX : X < 16) (hv : v < 256)
    (hf : fetch s = 0xE000 + X * 256 + v) :
    Cycle s rnd = OpcodeExxx { s with pc := (s.pc + 2) % 65536 } X v := by
  have e1 : (0xE000 + X * 256 + v) / 4096 % 16 = 14 := by omega
  have e2 : (0xE000 + X * 256 + v) / 256 % 16 = X := by omega
  have e3 : (0xE000 + X * 256 + v) % 256 = v := by omega
  simp only [Cycle, hf, e1, e2, e3]

theorem cycle_classF (s : Chip8) (rnd X v : Nat) (hX : X < 16) (hv : v < 256)
    (hf : fetch s = 0xF000 + X * 256 + v) :
    Cycle s rnd = OpcodeFxxx { s with pc := (s.pc + 2) % 65536 } X v := by
  have e1 : (0xF000 + X * 256 + v) / 4096 % 16 = 15 := by omega
  have e2 : (0xF000 + X * 256 + v) / 256 % 16 = X := by omega
  have e3 : (0xF000 + X * 256 + v) % 256 = v := by omega
  simp only [Cycle, hf, e1, e2, e3]

/-! ## C7: timer tick -/

/-- C7: `UpdateTimers` decrements the delay timer by exactly 1 if nonzero
and leaves it at 0 otherwise, independently does the same for the sound
timer (truncated subtraction on Nat is exactly this), and modifies no
other field of the state. -/
theorem c7_update_timers (s : Chip8) :
    UpdateTimers s = { s with delay_timer := s.delay_timer - 1,
                              sound_timer := s.sound_timer - 1 } := by
  obtain ⟨mem, V, I, pc, sp, stack, dt, st, kp, disp, df⟩ := s
  unfold UpdateTimers
  rcases Nat.eq_zero_or_pos dt with h | h <;> rcases Nat.eq_zero_or_pos st with h2 | h2 <;>
    simp_all

/-! ## C6: opcode 8XY4, add with carry -/

/-- C6: executing `0x8XY4` sets the flag register V\[0xF\] to 1 exactly
when `V[X] + V[Y]` exceeds 255 (0 otherwise) and then stores
`(V[X] + V[Y]) mod 256` into V\[X\]; the program counter advances by 2 and
nothing else changes.  When `X ≠ 0xF` both final register values are as
the claim states them. -/
theorem c6_add_with_carry (s : Chip8) (rnd X Y : Nat) (hw : Wf s)
    (hX : X < 16) (hY : Y < 16)
    (hf : fetch s = 0x8000 + X * 256 + Y * 16 + 4) :
    Cycle s rnd = { s with
      pc := (s.pc + 2) % 65536,
      V := (s.V.set 0xF (if s.V.getD X 0 + s.V.getD Y 0 > 0xFF then 1 else 0)).set X
             ((s.V.getD X 0 + s.V.getD Y 0) % 256) } ∧
    (X ≠ 0xF →
      (Cycle s rnd).V.getD X 0 = (s.V.getD X 0 + s.V.getD Y 0) % 256 ∧
      (Cycle s rnd).V.getD 0xF 0 =
        (if s.V.getD X 0 + s.V.getD Y 0 > 0xFF then 1 else 0)) := by
  have hc := cycle_class8 s rnd X Y 4 hX hY (by omega) hf
  have hVlen : s.V.length = 16 := hw.2.2.1
  constructor
  · rw [hc]
    simp only [Opcode8xxx]
  · intro hXF
    rw [hc]
    simp only [Opcode8xxx]
    refine ⟨?_, ?_⟩
    · exact getD_set_self _ X _ 0 (by simp only [List.length_set, hVlen]; omega)
    · rw [getD_set_ne _ X 0xF _ 0 hXF]
      exact getD_set_self _ 0xF _ 0 (by simp only [hVlen]; omega)

/-- The state of the C6 example: instruction `0x8014` at the program
counter, V\[0\] = 0xFF, V\[1\] = 0x01. -/
def addCarryExample : Chip8 :=
  progState [0x80, 0x14] (((List.replicate 16 0).set 0 0xFF).set 1 0x01)
    (List.replicate 16 false) 0

/-- Witness for C6 at the claim's example: V\[0\] = 0xFF, V\[1\] = 0x01,
instruction `0x8014`; the result is V\[0\] = 0 with flag V\[0xF\] = 1. -/
theorem c6_witness :
    (Cycle addCarryExample 0).V.getD 0 0 = 0 ∧
    (Cycle addCarryExample 0).V.getD 0xF 0 = 1 := by
  have hf : fetch addCarryExample = 0x8000 + 0 * 256 + 1 * 16 + 4 := by
    unfold addCarryExample
    rw [fetch_progState _ _ _ _ (by decide) (by decide)]; decide
  have h := c6_add_with_carry addCarryExample 0 0 1
    (Wf_progState _ _ _ _ (by decide) (by decide) (by decide) (by decide)
      (by decide))
    (by decide) (by decide) hf
  have h2 := h.2 (by decide)
  have e0 : addCarryExample.V.getD 0 0 = 0xFF := by decide
  have e1 : addCarryExample.V.getD 1 0 = 0x01 := by decide
  rw [h2.1, h2.2, e0, e1]
  decide

/-! ## C3: LoadROM size check -/

/-- C3: for an image longer than `4096 - 0x200 = 3584` bytes, `LoadROM`
resets and then fails with `RomTooLarge`, the state being exactly the
post-Reset baseline (no partial copy); for an image of at most 3584
bytes it succeeds, memory from 0x200 holds exactly the image bytes,
memory beyond the image and every other field equal the post-Reset
baseline. -/
theorem c3_load_rom (s : Chip8) (image : List Nat) :
    (image.length > 3584 →
      LoadROM s image = (Reset s, some LoadError.RomTooLarge)) ∧
    (image.length ≤ 3584 →
      (LoadROM s image).2 = none ∧
      (∀ i, i < image.length →
        (LoadROM s image).1.memory.getD (0x200 + i) 0 = image.getD i 0) ∧
      (∀ i, image.length ≤ i →
        (LoadROM s image).1.memory.getD (0x200 + i) 0 =
          (Reset s).memory.getD (0x200 + i) 0) ∧
      { (LoadROM s image).1 with memory := (Reset s).memory } = Reset s) := by
  have hMS : MEMORY_SIZE - START_ADDR = 3584 := rfl
  have hSA : START_ADDR = 0x200 := rfl
  constructor
  · intro h
    unfold LoadROM
    rw [if_pos (by omega)]
  · intro h
    have hno : ¬ (image.length > MEMORY_SIZE - START_ADDR) := by omega
    have hfst : (LoadROM s image).1 =
        { Reset s with memory := writeBytes (Reset s).memory START_ADDR image } := by
      unfold LoadROM
      rw [if_neg hno]
    have hsnd : (LoadROM s image).2 = none := by
      unfold LoadROM
      rw [if_neg hno]
    refine ⟨hsnd, ?_, ?_, ?_⟩
    · intro i hi
      rw [hfst]
      show (writeBytes (Reset s).memory START_ADDR image).getD (0x200 + i) 0 =
        image.getD i 0
      rw [hSA]
      refine getD_writeBytes_inside _ _ _ _ _ hi ?_
      have : (Reset s).memory.length = 4096 := resetState_memory_length
      omega
    · intro i hi
      rw [hfst]
      show (writeBytes (Reset s).memory START_ADDR image).getD (0x200 + i) 0 =
        (Reset s).memory.getD (0x200 + i) 0
      refine getD_writeBytes_ge _ _ _ _ _ ?_
      rw [hSA]; omega
    · rw [hfst]

/-- Witness for C3: a 3585-byte image is rejected with the state left at
the reset baseline, while the 3-byte image `[1, 2, 3]` loads with byte 2
at address 0x201. -/
theorem c3_witness :
    LoadROM resetState (List.replicate 3585 0) =
      (Reset resetState, some LoadError.RomTooLarge) ∧
    (LoadROM resetState [1, 2, 3]).2 = none ∧
    (LoadROM resetState [1, 2, 3]).1.memory.getD (0x200 + 1) 0 = 2 := by
  refine ⟨(c3_load_rom _ _).1 (by rw [List.length_replicate]; omega),
    ((c3_load_rom _ _).2 (by simp)).1, ?_⟩
  have h := ((c3_load_rom resetState [1, 2, 3]).2 (by simp)).2.1 1 (by simp)
  rw [h]
  rfl

/-! ## C5: blocking key wait (0xFX0A) -/

theorem findFirstKey_eq_none (kp : List Bool) (j : Nat)
    (h : ∀ i, j ≤ i → i < 16 → kp.getD i false = false) :
    findFirstKey kp j = none := by
  unfold findFirstKey
  split
  · rw [h j le_rfl (by assumption)]
    simp only [Bool.false_eq_true, if_false]
    exact findFirstKey_eq_none kp (j + 1) (fun i hi h2 => h i (by omega) h2)
  · rfl
termination_by 16 - j

theorem findFirstKey_eq_some (kp : List Bool) (j k : Nat) (hjk : j ≤ k)
    (hk : k < 16) (htrue : kp.getD k false = true)
    (hlow : ∀ i, j ≤ i → i < k → kp.getD i false = false) :
    findFirstKey kp j = some k := by
  unfold findFirstKey
  rw [if_pos (by omega)]
  rcases Nat.eq_or_lt_of_le hjk with he | hlt
  · rw [he, htrue]
    simp
  · rw [hlow j le_rfl hlt]
    simp only [Bool.false_eq_true, if_false]
    exact findFirstKey_eq_some kp (j + 1) k (by omega) hk htrue
      (fun i hi h2 => hlow i (by omega) h2)
termination_by 16 - j

/-- C5: with instruction `0xFX0A` at the program counter, a state whose
input latch is all false is a fixed point of `Cycle` (so repeated steps
never advance past the instruction); on the first step where some key is
true, V\[X\] receives the lowest true index `k` and the program counter
ends exactly 2 past the instruction, nothing else changing. -/
theorem c5_key_wait (s : Chip8) (rnd X : Nat) (hw : Wf s) (hX : X < 16)
    (hf : fetch s = 0xF000 + X * 256 + 0x0A) :
    ((∀ i, i < 16 → s.keypad.getD i false = false) →
      Cycle s rnd = s ∧ ∀ n : Nat, (fun t => Cycle t rnd)^[n] s = s) ∧
    (∀ k, k < 16 → s.keypad.getD k false = true →
      (∀ j, j < k → s.keypad.getD j false = false) →
      Cycle s rnd = { s with pc := (s.pc + 2) % 65536, V := s.V.set X k }) := by
  have hc := cycle_classF s rnd X 0x0A hX (by omega) hf
  have hpc : s.pc < 65536 := hw.2.2.2.2.2.1
  constructor
  · intro hnone
    have hfk : findFirstKey s.keypad 0 = none :=
      findFirstKey_eq_none s.keypad 0 (fun i _ h2 => hnone i h2)
    have hfix : Cycle s rnd = s := by
      rw [hc]
      simp only [OpcodeFxxx]
      norm_num
      rw [hfk]
      obtain ⟨mem, V, I, pc, sp, stack, dt, st, kp, disp, df⟩ := s
      simp only at hpc
      simp only [Chip8.mk.injEq, and_true, true_and]
      omega
    exact ⟨hfix, fun n => Function.iterate_fixed hfix n⟩
  · intro k hk htrue hlow
    have hfk : findFirstKey s.keypad 0 = some k :=
      findFirstKey_eq_some s.keypad 0 k (Nat.zero_le k) hk htrue
        (fun i _ h2 => hlow i h2)
    rw [hc]
    simp only [OpcodeFxxx]
    norm_num
    rw [hfk]

/-- The state of the C5 example: instruction `0xF30A` at the program
counter with keys 5 and 7 pressed. -/
def keyWaitExample (kp : List Bool) : Chip8 :=
  progState [0xF3, 0x0A] (List.replicate 16 0) kp 0

/-- Witness for C5: with all keys up, `0xF30A` is a fixed point; with
keys 5 and 7 down, one step stores 5 (the lowest) into V\[3\] and ends
with the program counter at 0x202. -/
theorem c5_witness :
    Cycle (keyWaitExample (List.replicate 16 false)) 0 =
      keyWaitExample (List.replicate 16 false) ∧
    Cycle (keyWaitExample (((List.replicate 16 false).set 5 true).set 7 true)) 0 =
      { keyWaitExample (((List.replicate 16 false).set 5 true).set 7 true) with
          pc := 0x202,
          V := (List.replicate 16 0).set 3 5 } := by
  have hwf1 : Wf (keyWaitExample (List.replicate 16 false)) :=
    Wf_progState _ _ _ _ (by decide) (by decide) (by decide) (by decide) (by decide)
  have hwf2 : Wf (keyWaitExample (((List.replicate 16 false).set 5 true).set 7 true)) :=
    Wf_progState _ _ _ _ (by decide) (by decide) (by decide) (by decide) (by decide)
  have hf1 : fetch (keyWaitExample (List.replicate 16 false)) =
      0xF000 + 3 * 256 + 0x0A := by
    unfold keyWaitExample
    rw [fetch_progState _ _ _ _ (by decide) (by decide)]; decide
  have hf2 : fetch (keyWaitExample (((List.replicate 16 false).set 5 true).set 7 true)) =
      0xF000 + 3 * 256 + 0x0A := by
    unfold keyWaitExample
    rw [fetch_progState _ _ _ _ (by decide) (by decide)]; decide
  constructor
  · exact ((c5_key_wait _ 0 3 hwf1 (by omega) hf1).1 (by decide)).1
  · have h := (c5_key_wait _ 0 3 hwf2 (by omega) hf2).2 5 (by omega) (by decide)
      (by decide)
    rw [h]
    rfl

/-! ## C8: 0xFX55 / 0xFX65 round trip -/

theorem storeRegs_getD_lt (mem V : List Nat) (Ival i reg a : Nat)
    (ha : a < Ival + i) :
    (storeRegs mem V Ival i reg).getD a 0 = mem.getD a 0 := by
  unfold storeRegs
  split
  · rw [storeRegs_getD_lt _ _ _ _ _ _ (by omega), getD_set_ne _ _ _ _ _ (by omega)]
  · rfl
termination_by reg + 1 - i

theorem storeRegs_getD (mem V : List Nat) (Ival i reg j : Nat)
    (hij : i ≤ j) (hj : j ≤ reg) (hlen : Ival + j < mem.length) :
    (storeRegs mem V Ival i reg).getD (Ival + j) 0 = V.getD j 0 := by
  unfold storeRegs
  rw [if_pos (by omega)]
  rcases Nat.eq_or_lt_of_le hij with he | hlt
  · rw [he, storeRegs_getD_lt _ _ _ _ _ _ (by omega)]
    exact getD_set_self _ _ _ _ (by omega)
  · rw [storeRegs_getD _ _ _ _ _ _ (by omega) hj (by simp only [List.length_set]; omega)]
termination_by reg + 1 - i

theorem loadRegs_getD_lt (V mem : List Nat) (Ival i reg j : Nat) (hj : j < i) :
    (loadRegs V mem Ival i reg).getD j 0 = V.getD j 0 := by
  unfold loadRegs
  split
  · rw [loadRegs_getD_lt _ _ _ _ _ _ (by omega), getD_set_ne _ _ _ _ _ (by omega)]
  · rfl
termination_by reg + 1 - i

theorem loadRegs_getD (V mem : List Nat) (Ival i reg j : Nat)
    (hij : i ≤ j) (hj : j ≤ reg) (hlen : j < V.length) :
    (loadRegs V mem Ival i reg).getD j 0 = mem.getD (Ival + j) 0 := by
  unfold loadRegs
  rw [if_pos (by omega)]
  rcases Nat.eq_or_lt_of_le hij with he | hlt
  · rw [he, loadRegs_getD_lt _ _ _ _ _ _ (by omega)]
    exact getD_set_self _ _ _ _ (by omega)
  · rw [loadRegs_getD _ _ _ _ _ _ (by omega) hj (by simp only [List.length_set]; omega)]
termination_by reg + 1 - i

theorem opcodeF55_eq (s : Chip8) :
    OpcodeFxxx s 3 0x55 = { s with memory := storeRegs s.memory s.V s.I 0 3 } := by
  simp only [OpcodeFxxx]
  norm_num

theorem opcodeF65_eq (s : Chip8) :
    OpcodeFxxx s 3 0x65 = { s with V := loadRegs s.V s.memory s.I 0 3 } := by
  simp only [OpcodeFxxx]
  norm_num

/-- C8: with `I + 3 < 4096`, storing registers 0..=3 with `0xF,55`,
zeroing registers 0..=3, then loading 0..=3 back with `0xF,65` restores
registers 0..=3 to their original values. -/
theorem c8_store_load_roundtrip (s : Chip8) (hw : Wf s) (hI : s.I + 3 < 4096) :
    ∀ i, i ≤ 3 →
      (OpcodeFxxx
        { OpcodeFxxx s 3 0x55 with
            V := ((((OpcodeFxxx s 3 0x55).V.set 0 0).set 1 0).set 2 0).set 3 0 }
        3 0x65).V.getD i 0 = s.V.getD i 0 := by
  have hmlen : s.memory.length = 4096 := hw.1
  have hVlen : s.V.length = 16 := hw.2.2.1
  intro i hi
  rw [opcodeF55_eq, opcodeF65_eq]
  simp only
  rw [loadRegs_getD _ _ _ _ _ _ (Nat.zero_le i) hi
      (by simp only [List.length_set]; omega),
    storeRegs_getD _ _ _ _ _ _ (Nat.zero_le i) hi (by omega)]

/-- The state of the C8 example: registers 0..=3 hold 10, 20, 30, 40 and
the index register points at 0x300. -/
def roundTripExample : Chip8 :=
  progState [] (((((List.replicate 16 0).set 0 10).set 1 20).set 2 30).set 3 40)
    (List.replicate 16 false) 0x300

/-- Witness for C8 at a concrete state: the store/zero/load sequence
restores registers 0..=3. -/
theorem c8_witness :
    (OpcodeFxxx
      { OpcodeFxxx roundTripExample 3 0x55 with
          V := ((((OpcodeFxxx roundTripExample 3 0x55).V.set 0 0).set 1 0).set
            2 0).set 3 0 }
      3 0x65).V.getD 0 0 = roundTripExample.V.getD 0 0 ∧
    (OpcodeFxxx
      { OpcodeFxxx roundTripExample 3 0x55 with
          V := ((((OpcodeFxxx roundTripExample 3 0x55).V.set 0 0).set 1 0).set
            2 0).set 3 0 }
      3 0x65).V.getD 3 0 = roundTripExample.V.getD 3 0 := by
  have hwf : Wf roundTripExample :=
    Wf_progState _ _ _ _ (by simp) (by decide) (by decide) (by decide) (by decide)
  have hI : roundTripExample.I + 3 < 4096 := by decide
  exact ⟨c8_store_load_roundtrip roundTripExample hwf hI 0 (by omega),
    c8_store_load_roundtrip roundTripExample hwf hI 3 (by omega)⟩

/-! ## C1: unrecognized instruction encodings -/

/-- The 35-opcode standard CHIP-8 instruction set, as the spec's table
lists it; a word not satisfying this predicate is an "unrecognized
encoding". -/
def recognizedOpcode (w : Nat) : Bool :=
  match w / 4096 % 16 with
  | 0x0 => w == 0x00E0 || w == 0x00EE
  | 0x1 => true
  | 0x2 => true
  | 0x3 => true
  | 0x4 => true
  | 0x5 => w % 16 == 0
  | 0x6 => true
  | 0x7 => true
  | 0x8 => decide (w % 16 < 8) || w % 16 == 0xE
  | 0x9 => w % 16 == 0
  | 0xA => true
  | 0xB => true
  | 0xC => true
  | 0xD => true
  | 0xE => w % 256 == 0x9E || w % 256 == 0xA1
  | 0xF => w % 256 == 0x07 || w % 256 == 0x0A || w % 256 == 0x15 ||
      w % 256 == 0x18 || w % 256 == 0x1E || w % 256 == 0x29 ||
      w % 256 == 0x33 || w % 256 == 0x55 || w % 256 == 0x65
  | _ => false

theorem getD_lt_of_bound (l : List Nat) (c i : Nat) (h : ∀ x ∈ l, x < c)
    (hc : 0 < c) : l.getD i 0 < c := by
  rcases Nat.lt_or_ge i l.length with hi | hi
  · rw [List.getD_eq_getElem l 0 hi]
    exact h _ (List.getElem_mem hi)
  · rw [List.getD_eq_default l 0 hi]
    exact hc

theorem fetch_lt (s : Chip8) (hw : Wf s) : fetch s < 65536 := by
  have h1 : s.memory.getD s.pc 0 < 256 :=
    getD_lt_of_bound _ _ _ hw.2.1 (by omega)
  have h2 : s.memory.getD (s.pc + 1) 0 < 256 :=
    getD_lt_of_bound _ _ _ hw.2.1 (by omega)
  unfold fetch
  omega

/-- The C1 counterexample state: word 0x5011 (not a recognized opcode) at
the program counter, with V\[0\] = V\[1\]. -/
def unrecognizedSkipExample : Chip8 :=
  progState [0x50, 0x11] (List.replicate 16 0) (List.replicate 16 false) 0

/-- C1 counterexample: 0x5011 is not one of the 35 recognized opcodes,
yet one `Cycle` advances the program counter by 4, not 2 — the code
dispatches every 0x5XYk word to the register-equality skip, so the step
is not a state-preserving pc+2 no-op. -/
theorem c1_counterexample :
    recognizedOpcode (fetch unrecognizedSkipExample) = false ∧
    unrecognizedSkipExample.pc = 0x200 ∧
    (Cycle unrecognizedSkipExample 0).pc = 0x204 ∧
    Cycle unrecognizedSkipExample 0 ≠
      { unrecognizedSkipExample with
          pc := (unrecognizedSkipExample.pc + 2) % 65536 } := by
  have hf : fetch unrecognizedSkipExample = 0x5000 + 0 * 256 + 1 * 16 + 1 := by
    unfold unrecognizedSkipExample
    rw [fetch_progState _ _ _ _ (by decide) (by decide)]
    decide
  have hc := cycle_class5 unrecognizedSkipExample 0 0 1 1 (by omega) (by omega)
    (by omega) hf
  have hpc : (Cycle unrecognizedSkipExample 0).pc = 0x204 := by
    rw [hc]; decide
  refine ⟨by rw [hf]; decide, rfl, hpc, fun h => ?_⟩
  have h2 := congrArg Chip8.pc h
  rw [hpc] at h2
  have h3 : ({ unrecognizedSkipExample with
      pc := (unrecognizedSkipExample.pc + 2) % 65536 } : Chip8).pc = 0x202 := by
    decide
  rw [h3] at h2
  exact absurd h2 (by decide)

/-- C1 (amended): an instruction word that is not one of the 35
recognized opcodes and is not of class 0x5 or 0x9 makes one `Cycle` step
a silent no-op, leaving the state unchanged except pc := pc + 2; but the
code dispatches every 0x5XYk word (k ≠ 0) to the 0x5XY0 equality skip and
every 0x9XYk word (k ≠ 0) to the 0x9XY0 inequality skip, so those
unrecognized words may advance the program counter by 4. -/
theorem c1_unrecognized_amended (s : Chip8) (rnd : Nat) (hw : Wf s)
    (hur : recognizedOpcode (fetch s) = false) :
    (fetch s / 4096 % 16 ≠ 5 → fetch s / 4096 % 16 ≠ 9 →
      Cycle s rnd = { s with pc := (s.pc + 2) % 65536 }) ∧
    (fetch s / 4096 % 16 = 5 →
      Cycle s rnd =
        if s.V.getD (fetch s / 256 % 16) 0 = s.V.getD (fetch s / 16 % 16) 0
        then { s with pc := (s.pc + 4) % 65536 }
        else { s with pc := (s.pc + 2) % 65536 }) ∧
    (fetch s / 4096 % 16 = 9 →
      Cycle s rnd =
        if s.V.getD (fetch s / 256 % 16) 0 ≠ s.V.getD (fetch s / 16 % 16) 0
        then { s with pc := (s.pc + 4) % 65536 }
        else { s with pc := (s.pc + 2) % 65536 }) := by
  have harith : ((s.pc + 2) % 65536 + 2) % 65536 = (s.pc + 4) % 65536 := by omega
  refine ⟨?_, ?_, ?_⟩
  · intro h5 h9
    have hcases : fetch s / 4096 % 16 = 0 ∨ fetch s / 4096 % 16 = 1 ∨
        fetch s / 4096 % 16 = 2 ∨ fetch s / 4096 % 16 = 3 ∨
        fetch s / 4096 % 16 = 4 ∨ fetch s / 4096 % 16 = 5 ∨
        fetch s / 4096 % 16 = 6 ∨ fetch s / 4096 % 16 = 7 ∨
        fetch s / 4096 % 16 = 8 ∨ fetch s / 4096 % 16 = 9 ∨
        fetch s / 4096 % 16 = 10 ∨ fetch s / 4096 % 16 = 11 ∨
        fetch s / 4096 % 16 = 12 ∨ fetch s / 4096 % 16 = 13 ∨
        fetch s / 4096 % 16 = 14 ∨ fetch s / 4096 % 16 = 15 := by omega
    rcases hcases with h|h|h|h|h|h|h|h|h|h|h|h|h|h|h|h
    · simp only [recognizedOpcode, h, Bool.or_eq_false_iff,
        beq_eq_false_iff_ne] at hur
      simp only [Cycle, h, Opcode0xxx]
      rw [if_neg hur.1, if_neg hur.2]
    · simp only [recognizedOpcode, h] at hur
      exact absurd hur (by decide)
    · simp only [recognizedOpcode, h] at hur
      exact absurd hur (by decide)
    · simp only [recognizedOpcode, h] at hur
      exact absurd hur (by decide)
    · simp only [recognizedOpcode, h] at hur
      exact absurd hur (by decide)
    · exact absurd h h5
    · simp only [recognizedOpcode, h] at hur
      exact absurd hur (by decide)
    · simp only [recognizedOpcode, h] at hur
      exact absurd hur (by decide)
    · simp only [recognizedOpcode, h, Bool.or_eq_false_iff,
        beq_eq_false_iff_ne, decide_eq_false_iff_not, Nat.not_lt] at hur
      obtain ⟨h1, h2⟩ := hur
      simp only [Cycle, h]
      have hsub : fetch s % 16 = 8 ∨ fetch s % 16 = 9 ∨ fetch s % 16 = 10 ∨
          fetch s % 16 = 11 ∨ fetch s % 16 = 12 ∨ fetch s % 16 = 13 ∨
          fetch s % 16 = 15 := by omega
      rcases hsub with h3|h3|h3|h3|h3|h3|h3 <;> rw [h3] <;> rfl
    · exact absurd h h9
    · simp only [recognizedOpcode, h] at hur
      exact absurd hur (by decide)
    · simp only [recognizedOpcode, h] at hur
      exact absurd hur (by decide)
    · simp only [recognizedOpcode, h] at hur
      exact absurd hur (by decide)
    · simp only [recognizedOpcode, h] at hur
      exact absurd hur (by decide)
    · simp only [recognizedOpcode, h, Bool.or_eq_false_iff,
        beq_eq_false_iff_ne] at hur
      simp only [Cycle, h, OpcodeExxx]
      rw [if_neg (fun hand => hur.1 hand.1), if_neg (fun hand => hur.2 hand.1)]
    · simp only [recognizedOpcode, h, Bool.or_eq_false_iff,
        beq_eq_false_iff_ne] at hur
      obtain ⟨⟨⟨⟨⟨⟨⟨⟨n1, n2⟩, n3⟩, n4⟩, n5⟩, n6⟩, n7⟩, n8⟩, n9⟩ := hur
      simp only [Cycle, h, OpcodeFxxx]
      rw [if_neg n1, if_neg n2, if_neg n3, if_neg n4, if_neg n5, if_neg n6,
        if_neg n7, if_neg n8, if_neg n9]
  · intro h
    simp only [Cycle, h, Opcode5xxx]
    split_ifs with hcond
    · rw [harith]
    · rfl
  · intro h
    simp only [Cycle, h, Opcode9xxx]
    split_ifs with hcond
    · rw [harith]
    · rfl

/-- The C1 amended-claim witness state: unrecognized word 0x8008 at the
program counter. -/
def noopExample : Chip8 :=
  progState [0x80, 0x08] (List.replicate 16 0) (List.replicate 16 false) 0

/-- Witness for the amended C1: the unrecognized class-8 word 0x8008 is a
silent no-op, only advancing the program counter by 2. -/
theorem c1_amended_witness :
    recognizedOpcode (fetch noopExample) = false ∧
    Cycle noopExample 0 = { noopExample with
      pc := (noopExample.pc + 2) % 65536 } := by
  have hf : fetch noopExample = 0x8008 := by
    unfold noopExample
    rw [fetch_progState _ _ _ _ (by decide) (by decide)]
    decide
  have hur : recognizedOpcode (fetch noopExample) = false := by rw [hf]; decide
  have hwf : Wf noopExample :=
    Wf_progState _ _ _ _ (by decide) (by decide) (by decide) (by decide)
      (by decide)
  exact ⟨hur, (c1_unrecognized_amended noopExample 0 hwf hur).1
    (by rw [hf]; decide) (by rw [hf]; decide)⟩

/-! ## C2: address arithmetic is 16-bit, not 12-bit -/

theorem Opcode8xxx_pc_I (t : Chip8) (X Y n : Nat) :
    (Opcode8xxx t X Y n).pc = t.pc ∧ (Opcode8xxx t X Y n).I = t.I := by
  unfold Opcode8xxx
  split <;> exact ⟨rfl, rfl⟩

theorem OpcodeFxxx_bound (t : Chip8) (reg nib : Nat)
    (hpc : t.pc < 65536) (hI : t.I < 65536) :
    (OpcodeFxxx t reg nib).pc < 65536 ∧ (OpcodeFxxx t reg nib).I < 65536 := by
  unfold OpcodeFxxx
  split_ifs
  · exact ⟨hpc, hI⟩
  · cases hfk : findFirstKey t.keypad 0 with
    | none => exact ⟨Nat.mod_lt _ (by omega), hI⟩
    | some k => exact ⟨hpc, hI⟩
  · exact ⟨hpc, hI⟩
  · exact ⟨hpc, hI⟩
  · exact ⟨hpc, Nat.mod_lt _ (by omega)⟩
  · exact ⟨hpc, Nat.mod_lt _ (by omega)⟩
  · exact ⟨hpc, hI⟩
  · exact ⟨hpc, hI⟩
  · exact ⟨hpc, hI⟩
  · exact ⟨hpc, hI⟩

theorem getD_replicate_zero (n i : Nat) : (List.replicate n 0).getD i 0 = 0 := by
  rcases Nat.lt_or_ge i n with h | h
  · rw [List.getD_eq_getElem _ _ (by simpa using h)]
    simp
  · exact List.getD_eq_default _ _ (by simpa using h)

/-- C2 (amended): after one `Cycle` step of a well-formed state the
program counter and index register are reduced modulo 2^16 (they always
lie in 0x0000–0xFFFF), but the code applies no 12-bit mask: in
particular the `0xFX1E` update computes `(I + V[X]) mod 2^16`, which can
exceed 0xFFF, and the fetch advance computes `(pc + 2) mod 2^16`. -/
theorem c2_address_arith_amended (s : Chip8) (rnd : Nat) (hw : Wf s) :
    ((Cycle s rnd).pc < 65536 ∧ (Cycle s rnd).I < 65536) ∧
    (fetch s / 4096 % 16 = 0xF → fetch s % 256 = 0x1E →
      (Cycle s rnd).I = (s.I + s.V.getD (fetch s / 256 % 16) 0) % 65536 ∧
      (Cycle s rnd).pc = (s.pc + 2) % 65536) := by
  have hI : s.I < 65536 := hw.2.2.2.2.1
  have hpc : s.pc < 65536 := hw.2.2.2.2.2.1
  have hwlt : fetch s < 65536 := fetch_lt s hw
  have hstackb : ∀ a, s.stack.getD a 0 < 65536 := fun a =>
    getD_lt_of_bound _ _ _ hw.2.2.2.2.2.2.2.2.1 (by omega)
  constructor
  · have hcases : fetch s / 4096 % 16 = 0 ∨ fetch s / 4096 % 16 = 1 ∨
        fetch s / 4096 % 16 = 2 ∨ fetch s / 4096 % 16 = 3 ∨
        fetch s / 4096 % 16 = 4 ∨ fetch s / 4096 % 16 = 5 ∨
        fetch s / 4096 % 16 = 6 ∨ fetch s / 4096 % 16 = 7 ∨
        fetch s / 4096 % 16 = 8 ∨ fetch s / 4096 % 16 = 9 ∨
        fetch s / 4096 % 16 = 10 ∨ fetch s / 4096 % 16 = 11 ∨
        fetch s / 4096 % 16 = 12 ∨ fetch s / 4096 % 16 = 13 ∨
        fetch s / 4096 % 16 = 14 ∨ fetch s / 4096 % 16 = 15 := by omega
    have haddr : fetch s % 4096 < 65536 := by omega
    rcases hcases with h|h|h|h|h|h|h|h|h|h|h|h|h|h|h|h
    · simp only [Cycle, h, Opcode0xxx]
      split_ifs
      · exact ⟨Nat.mod_lt _ (by omega), hI⟩
      · exact ⟨hstackb _, hI⟩
      · exact ⟨Nat.mod_lt _ (by omega), hI⟩
    · simp only [Cycle, h]
      exact ⟨haddr, hI⟩
    · simp only [Cycle, h]
      exact ⟨haddr, hI⟩
    · simp only [Cycle, h, Opcode3xxx]
      split_ifs <;> exact ⟨Nat.mod_lt _ (by omega), hI⟩
    · simp only [Cycle, h, Opcode4xxx]
      split_ifs <;> exact ⟨Nat.mod_lt _ (by omega), hI⟩
    · simp only [Cycle, h, Opcode5xxx]
      split_ifs <;> exact ⟨Nat.mod_lt _ (by omega), hI⟩
    · simp only [Cycle, h]
      exact ⟨Nat.mod_lt _ (by omega), hI⟩
    · simp only [Cycle, h]
      exact ⟨Nat.mod_lt _ (by omega), hI⟩
    · simp only [Cycle, h]
      rw [(Opcode8xxx_pc_I _ _ _ _).1, (Opcode8xxx_pc_I _ _ _ _).2]
      exact ⟨Nat.mod_lt _ (by omega), hI⟩
    · simp only [Cycle, h, Opcode9xxx]
      split_ifs <;> exact ⟨Nat.mod_lt _ (by omega), hI⟩
    · simp only [Cycle, h]
      exact ⟨Nat.mod_lt _ (by omega), haddr⟩
    · simp only [Cycle, h]
      exact ⟨Nat.mod_lt _ (by omega), hI⟩
    · simp only [Cycle, h]
      exact ⟨Nat.mod_lt _ (by omega), hI⟩
    · simp only [Cycle, h]
      exact ⟨Nat.mod_lt _ (by omega), hI⟩
    · simp only [Cycle, h, OpcodeExxx]
      split_ifs <;> exact ⟨Nat.mod_lt _ (by omega), hI⟩
    · simp only [Cycle, h]
      exact OpcodeFxxx_bound _ _ _ (Nat.mod_lt _ (by omega)) hI
  · intro hcl hlow
    have hf : fetch s = 0xF000 + (fetch s / 256 % 16) * 256 + 0x1E := by omega
    have hc := cycle_classF s rnd (fetch s / 256 % 16) 0x1E (by omega) (by omega) hf
    rw [hc]
    simp only [OpcodeFxxx]
    norm_num

/-- The C2 counterexample state: program counter 0xFFE, memory holding
0x0000 there (a no-op word). -/
def wrapExample : Chip8 := { resetState with pc := 0xFFE }

/-- C2 counterexample: one step from pc = 0xFFE leaves the program
counter at 0x1000, above 0xFFF — the fetch advance is not masked to 12
bits. -/
theorem c2_counterexample :
    Wf wrapExample ∧ (Cycle wrapExample 0).pc = 0x1000 ∧
    ¬ ((Cycle wrapExample 0).pc ≤ 0xFFF) := by
  have hwf : Wf wrapExample := by
    obtain ⟨a1, a2, a3, a4, a5, a6, a7, a8, a9, a10, a11, a12, a13, a14⟩ :=
      Wf_resetState
    exact ⟨a1, a2, a3, a4, a5, by decide, a7, a8, a9, a10, a11, a12, a13, a14⟩
  have hmem : wrapExample.memory =
      writeBytes (List.replicate 4096 0) 0 fontset := rfl
  have h1 : wrapExample.memory.getD 0xFFE 0 = 0 := by
    rw [hmem, getD_writeBytes_ge _ _ _ _ _ (by decide), getD_replicate_zero]
  have h2 : wrapExample.memory.getD (0xFFE + 1) 0 = 0 := by
    rw [hmem, getD_writeBytes_ge _ _ _ _ _ (by decide), getD_replicate_zero]
  have hf : fetch wrapExample = 0 := by
    unfold fetch
    rw [show wrapExample.pc = 0xFFE from rfl, h1, h2]
  have hc := cycle_class0 wrapExample 0 0 (by omega) hf
  have hpc : (Cycle wrapExample 0).pc = 0x1000 := by
    rw [hc]; decide
  exact ⟨hwf, hpc, by rw [hpc]; decide⟩

/-- Witness for the amended C2 at the reset state. -/
theorem c2_amended_witness :
    (Cycle resetState 0).pc < 65536 ∧ (Cycle resetState 0).I < 65536 :=
  (c2_address_arith_amended resetState 0 Wf_resetState).1

end CatsChip8

namespace CatsChip8

/-- Bit `c` (from the left) of a sprite byte, as the draw loop extracts
it: `(sprite_byte >> (7 - col)) & 1`. -/
def spriteBit (sb c : Nat) : Nat := sb / 2 ^ (7 - c) % 2

theorem drawCols_fst_length (x yr sb col : Nat) (disp : List Nat) (vf : Nat) :
    (drawCols x yr sb col disp vf).1.length = disp.length := by
  unfold drawCols
  dsimp only
  by_cases h1 : col < 8
  · by_cases h2 : DISPLAY_WIDTH ≤ x + col
    · rw [if_pos h1, if_pos h2]
    · by_cases h3 : sb / 2 ^ (7 - col) % 2 ≠ 0
      · rw [if_pos h1, if_neg h2, if_pos h3,
          drawCols_fst_length x yr sb (col + 1) _ _]
        simp
      · rw [if_pos h1, if_neg h2, if_neg h3]
        exact drawCols_fst_length x yr sb (col + 1) disp vf
  · rw [if_neg h1]
termination_by 8 - col

theorem drawCols_getD (x yr sb col : Nat) (disp : List Nat) (vf : Nat)
    (hx : x < 64) (hyr : yr < 32) (hlen : disp.length = 2048)
    (cy2 cx2 : Nat) (hcy : cy2 < 32) (hcx : cx2 < 64) :
    (drawCols x yr sb col disp vf).1.getD (cy2 * 64 + cx2) 0 =
      if cy2 = yr ∧ x ≤ cx2 ∧ cx2 < x + 8 ∧ col ≤ cx2 - x ∧
          spriteBit sb (cx2 - x) = 1
      then disp.getD (cy2 * 64 + cx2) 0 ^^^ 1
      else disp.getD (cy2 * 64 + cx2) 0 := by
  unfold drawCols
  dsimp only
  simp only [show DISPLAY_WIDTH = (64 : Nat) from rfl]
  by_cases h1 : col < 8
  · by_cases h2 : (64 : Nat) ≤ x + col
    · rw [if_pos h1, if_pos h2, if_neg]
      rintro ⟨e1, e2, e3, e4, e5⟩
      omega
    · by_cases h3 : sb / 2 ^ (7 - col) % 2 ≠ 0
      · have hbit1 : spriteBit sb col = 1 := by
          show sb / 2 ^ (7 - col) % 2 = 1
          have hm : sb / 2 ^ (7 - col) % 2 < 2 := Nat.mod_lt _ (by omega)
          omega
        rw [if_pos h1, if_neg h2, if_pos h3,
          drawCols_getD x yr sb (col + 1) _ _ hx hyr (by simp [hlen]) cy2 cx2
            hcy hcx]
        by_cases hj : cy2 = yr ∧ cx2 = x + col
        · obtain ⟨e1, e2⟩ := hj
          have hxx : cx2 - x = col := by omega
          have hidx : cy2 * 64 + cx2 = yr * 64 + (x + col) := by omega
          rw [if_neg (by rintro ⟨f1, f2, f3, f4, f5⟩; omega)]
          rw [hidx, getD_set_self _ _ _ _ (by omega)]
          rw [if_pos ⟨e1, by omega, by omega, by omega, by rw [hxx]; exact hbit1⟩]
        · have hne : yr * 64 + (x + col) ≠ cy2 * 64 + cx2 := by
            intro he
            exact hj ⟨by omega, by omega⟩
          rw [getD_set_ne _ _ _ _ _ hne]
          split_ifs with hA hB1 hB2
          · rfl
          · exfalso
            obtain ⟨a1, a2, a3, a4, a5⟩ := hA
            exact hB1 ⟨a1, a2, a3, by omega, a5⟩
          · exfalso
            obtain ⟨a1, a2, a3, a4, a5⟩ := hB2
            have hxc : cx2 - x = col := by
              rcases Nat.eq_or_lt_of_le a4 with hq | hq
              · omega
              · exact absurd ⟨a1, a2, a3, by omega, a5⟩ hA
            exact hj ⟨a1, by omega⟩
          · rfl
      · have hbit0 : spriteBit sb col = 0 := by
          show sb / 2 ^ (7 - col) % 2 = 0
          omega
        rw [if_pos h1, if_neg h2, if_neg h3,
          drawCols_getD x yr sb (col + 1) disp vf hx hyr hlen cy2 cx2 hcy hcx]
        split_ifs with hA hB1 hB2
        · rfl
        · exfalso
          obtain ⟨a1, a2, a3, a4, a5⟩ := hA
          exact hB1 ⟨a1, a2, a3, by omega, a5⟩
        · exfalso
          obtain ⟨a1, a2, a3, a4, a5⟩ := hB2
          have hxc : cx2 - x = col := by
            rcases Nat.eq_or_lt_of_le a4 with hq | hq
            · omega
            · exact absurd ⟨a1, a2, a3, by omega, a5⟩ hA
          rw [hxc, hbit0] at a5
          exact absurd a5 (by decide)
        · rfl
  · rw [if_neg h1, if_neg]
    rintro ⟨e1, e2, e3, e4, e5⟩
    omega
termination_by 8 - col




/-- Decidability of the bounded existentials of the draw
characterization. -/
instance decBoundedExists (n : Nat) (p : Nat → Prop) [DecidablePred p] :
    Decidable (∃ c, c < n ∧ p c) :=
  decidable_of_iff (∃ c ∈ List.range n, p c) (by
    constructor
    · rintro ⟨c, hc, hp⟩
      exact ⟨c, List.mem_range.mp hc, hp⟩
    · rintro ⟨c, hc, hp⟩
      exact ⟨c, List.mem_range.mpr hc, hp⟩)

/-- The column loop starting at `col` finds a collision: some remaining
in-range set sprite bit lands on a lit cell of row `yr`. -/
def colHit (x yr sb col : Nat) (disp : List Nat) : Prop :=
  ∃ c, c < 8 ∧ col ≤ c ∧ x + c < 64 ∧ spriteBit sb c = 1 ∧
    disp.getD (yr * 64 + (x + c)) 0 = 1

instance (x yr sb col : Nat) (disp : List Nat) :
    Decidable (colHit x yr sb col disp) := by
  unfold colHit
  infer_instance

/-- The draw of rows `row ≤ r < nib` toggles cell `(cy, cx)`: the cell
lies in the clipped sprite box and the corresponding sprite bit is set. -/
def rowsTouch (mem : List Nat) (Ival x y row nib cy cx : Nat) : Prop :=
  ∃ r, r < nib ∧ row ≤ r ∧ cy = y + r ∧ x ≤ cx ∧ cx < x + 8 ∧
    spriteBit (mem.getD (Ival + r) 0) (cx - x) = 1

instance (mem : List Nat) (Ival x y row nib cy cx : Nat) :
    Decidable (rowsTouch mem Ival x y row nib cy cx) := by
  unfold rowsTouch
  infer_instance

/-- The draw of rows `row ≤ r < nib` collides: some drawn (unclipped)
sprite bit lands on a cell of `disp` that is already lit. -/
def rowsHit (mem : List Nat) (Ival x y row nib : Nat) (disp : List Nat) :
    Prop :=
  ∃ r, r < nib ∧ row ≤ r ∧ y + r < 32 ∧ ∃ c, c < 8 ∧ x + c < 64 ∧
    spriteBit (mem.getD (Ival + r) 0) c = 1 ∧
    disp.getD ((y + r) * 64 + (x + c)) 0 = 1

instance (mem : List Nat) (Ival x y row nib : Nat) (disp : List Nat) :
    Decidable (rowsHit mem Ival x y row nib disp) := by
  unfold rowsHit
  infer_instance

theorem drawCols_snd (x yr sb col : Nat) (disp : List Nat) (vf : Nat)
    (hx : x < 64) (hyr : yr < 32) (hlen : disp.length = 2048) :
    (drawCols x yr sb col disp vf).2 =
      if colHit x yr sb col disp then 1 else vf := by
  unfold drawCols
  dsimp only
  simp only [show DISPLAY_WIDTH = (64 : Nat) from rfl]
  by_cases h1 : col < 8
  · by_cases h2 : (64 : Nat) ≤ x + col
    · rw [if_pos h1, if_pos h2, if_neg]
      unfold colHit
      rintro ⟨c, f1, f2, f3, f4, f5⟩
      omega
    · by_cases h3 : sb / 2 ^ (7 - col) % 2 ≠ 0
      · have hbit1 : spriteBit sb col = 1 := by
          show sb / 2 ^ (7 - col) % 2 = 1
          have hm : sb / 2 ^ (7 - col) % 2 < 2 := Nat.mod_lt _ (by omega)
          omega
        rw [if_pos h1, if_neg h2, if_pos h3,
          drawCols_snd x yr sb (col + 1) _ _ hx hyr (by simp [hlen])]
        unfold colHit
        have hsetIff : (∃ c, c < 8 ∧ col + 1 ≤ c ∧ x + c < 64 ∧
              spriteBit sb c = 1 ∧
              (disp.set (yr * 64 + (x + col))
                (disp.getD (yr * 64 + (x + col)) 0 ^^^ 1)).getD
                  (yr * 64 + (x + c)) 0 = 1)
            ↔ (∃ c, c < 8 ∧ col + 1 ≤ c ∧ x + c < 64 ∧ spriteBit sb c = 1 ∧
              disp.getD (yr * 64 + (x + c)) 0 = 1) := by
          constructor
          · rintro ⟨c, f1, f2, f3, f4, f5⟩
            refine ⟨c, f1, f2, f3, f4, ?_⟩
            rwa [getD_set_ne _ _ _ _ _ (by omega)] at f5
          · rintro ⟨c, f1, f2, f3, f4, f5⟩
            refine ⟨c, f1, f2, f3, f4, ?_⟩
            rwa [getD_set_ne _ _ _ _ _ (by omega)]
        rw [if_congr hsetIff rfl rfl]
        by_cases hd : disp.getD (yr * 64 + (x + col)) 0 = 1
        · rw [if_pos hd]
          rw [if_pos (show ∃ c, c < 8 ∧ col ≤ c ∧ x + c < 64 ∧
              spriteBit sb c = 1 ∧ disp.getD (yr * 64 + (x + c)) 0 = 1 from
              ⟨col, h1, le_rfl, by omega, hbit1, hd⟩)]
          split_ifs <;> rfl
        · rw [if_neg hd]
          have hiff : (∃ c, c < 8 ∧ col + 1 ≤ c ∧ x + c < 64 ∧
                spriteBit sb c = 1 ∧ disp.getD (yr * 64 + (x + c)) 0 = 1)
              ↔ (∃ c, c < 8 ∧ col ≤ c ∧ x + c < 64 ∧ spriteBit sb c = 1 ∧
                disp.getD (yr * 64 + (x + c)) 0 = 1) := by
            constructor
            · rintro ⟨c, f1, f2, f3, f4, f5⟩
              exact ⟨c, f1, by omega, f3, f4, f5⟩
            · rintro ⟨c, f1, f2, f3, f4, f5⟩
              have hcne : c ≠ col := by
                intro he
                rw [he] at f5
                exact hd f5
              exact ⟨c, f1, by omega, f3, f4, f5⟩
          rw [if_congr hiff rfl rfl]
      · have hbit0 : spriteBit sb col = 0 := by
          show sb / 2 ^ (7 - col) % 2 = 0
          omega
        rw [if_pos h1, if_neg h2, if_neg h3,
          drawCols_snd x yr sb (col + 1) disp vf hx hyr hlen]
        unfold colHit
        have hiff : (∃ c, c < 8 ∧ col + 1 ≤ c ∧ x + c < 64 ∧
              spriteBit sb c = 1 ∧ disp.getD (yr * 64 + (x + c)) 0 = 1)
            ↔ (∃ c, c < 8 ∧ col ≤ c ∧ x + c < 64 ∧ spriteBit sb c = 1 ∧
              disp.getD (yr * 64 + (x + c)) 0 = 1) := by
          constructor
          · rintro ⟨c, f1, f2, f3, f4, f5⟩
            exact ⟨c, f1, by omega, f3, f4, f5⟩
          · rintro ⟨c, f1, f2, f3, f4, f5⟩
            have hcne : c ≠ col := by
              intro he
              rw [he] at f4
              rw [hbit0] at f4
              exact absurd f4 (by decide)
            exact ⟨c, f1, by omega, f3, f4, f5⟩
        rw [if_congr hiff rfl rfl]
  · rw [if_neg h1, if_neg]
    unfold colHit
    rintro ⟨c, f1, f2, f3, f4, f5⟩
    omega
termination_by 8 - col

theorem drawRows_fst_length (mem : List Nat) (Ival x y row nib : Nat)
    (disp : List Nat) (vf : Nat) :
    (drawRows mem Ival x y row nib disp vf).1.length = disp.length := by
  unfold drawRows
  dsimp only
  by_cases h1 : row < nib
  · by_cases h2 : DISPLAY_HEIGHT ≤ y + row
    · rw [if_pos h1, if_pos h2]
    · rw [if_pos h1, if_neg h2,
        drawRows_fst_length mem Ival x y (row + 1) nib _ _, drawCols_fst_length]
  · rw [if_neg h1]
termination_by nib - row

theorem drawRows_getD (mem : List Nat) (Ival x y row nib : Nat)
    (disp : List Nat) (vf : Nat) (hx : x < 64) (hy : y < 32)
    (hlen : disp.length = 2048) (cy cx : Nat) (hcy : cy < 32) (hcx : cx < 64) :
    (drawRows mem Ival x y row nib disp vf).1.getD (cy * 64 + cx) 0 =
      if rowsTouch mem Ival x y row nib cy cx
      then disp.getD (cy * 64 + cx) 0 ^^^ 1
      else disp.getD (cy * 64 + cx) 0 := by
  unfold drawRows
  dsimp only
  simp only [show DISPLAY_HEIGHT = (32 : Nat) from rfl]
  by_cases h1 : row < nib
  · by_cases h2 : (32 : Nat) ≤ y + row
    · rw [if_pos h1, if_pos h2, if_neg]
      unfold rowsTouch
      rintro ⟨r, f1, f2, f3, f4⟩
      omega
    · rw [if_pos h1, if_neg h2,
        drawRows_getD mem Ival x y (row + 1) nib _ _ hx hy
          (by rw [drawCols_fst_length]; exact hlen) cy cx hcy hcx]
      unfold rowsTouch
      by_cases hr : cy = y + row
      · rw [if_neg (show ¬(∃ r, r < nib ∧ row + 1 ≤ r ∧ cy = y + r ∧
            x ≤ cx ∧ cx < x + 8 ∧
            spriteBit (mem.getD (Ival + r) 0) (cx - x) = 1) by
              rintro ⟨r, f1, f2, f3, f4⟩
              omega)]
        rw [drawCols_getD x (y + row) _ 0 disp vf hx (by omega) hlen cy cx
          hcy hcx]
        have hiff : (cy = y + row ∧ x ≤ cx ∧ cx < x + 8 ∧ 0 ≤ cx - x ∧
              spriteBit (mem.getD (Ival + row) 0) (cx - x) = 1)
            ↔ (∃ r, r < nib ∧ row ≤ r ∧ cy = y + r ∧ x ≤ cx ∧ cx < x + 8 ∧
              spriteBit (mem.getD (Ival + r) 0) (cx - x) = 1) := by
          constructor
          · rintro ⟨f1, f2, f3, f4, f5⟩
            exact ⟨row, h1, le_rfl, f1, f2, f3, f5⟩
          · rintro ⟨r, f1, f2, f3, f4, f5, f6⟩
            have hre : r = row := by omega
            rw [hre] at f6
            exact ⟨hr, f4, f5, by omega, f6⟩
        rw [if_congr hiff rfl rfl]
      · rw [drawCols_getD x (y + row) _ 0 disp vf hx (by omega) hlen cy cx
          hcy hcx]
        rw [if_neg (show ¬(cy = y + row ∧ x ≤ cx ∧ cx < x + 8 ∧ 0 ≤ cx - x ∧
            spriteBit (mem.getD (Ival + row) 0) (cx - x) = 1) from
            fun hand => hr hand.1)]
        have hiff : (∃ r, r < nib ∧ row + 1 ≤ r ∧ cy = y + r ∧ x ≤ cx ∧
              cx < x + 8 ∧ spriteBit (mem.getD (Ival + r) 0) (cx - x) = 1)
            ↔ (∃ r, r < nib ∧ row ≤ r ∧ cy = y + r ∧ x ≤ cx ∧ cx < x + 8 ∧
              spriteBit (mem.getD (Ival + r) 0) (cx - x) = 1) := by
          constructor
          · rintro ⟨r, f1, f2, f3, f4, f5, f6⟩
            exact ⟨r, f1, by omega, f3, f4, f5, f6⟩
          · rintro ⟨r, f1, f2, f3, f4, f5, f6⟩
            have hrne : r ≠ row := by
              intro he
              rw [he] at f3
              exact hr f3
            exact ⟨r, f1, by omega, f3, f4, f5, f6⟩
        rw [if_congr hiff rfl rfl]
  · rw [if_neg h1, if_neg]
    unfold rowsTouch
    rintro ⟨r, f1, f2, f3⟩
    omega
termination_by nib - row

theorem drawRows_snd (mem : List Nat) (Ival x y row nib : Nat)
    (disp : List Nat) (vf : Nat) (hx : x < 64) (hy : y < 32)
    (hlen : disp.length = 2048) :
    (drawRows mem Ival x y row nib disp vf).2 =
      if rowsHit mem Ival x y row nib disp then 1 else vf := by
  unfold drawRows
  dsimp only
  simp only [show DISPLAY_HEIGHT = (32 : Nat) from rfl]
  by_cases h1 : row < nib
  · by_cases h2 : (32 : Nat) ≤ y + row
    · rw [if_pos h1, if_pos h2, if_neg]
      unfold rowsHit
      rintro ⟨r, f1, f2, f3, f4⟩
      omega
    · rw [if_pos h1, if_neg h2,
        drawRows_snd mem Ival x y (row + 1) nib _ _ hx hy
          (by rw [drawCols_fst_length]; exact hlen),
        drawCols_snd x (y + row) _ 0 _ _ hx (by omega) hlen]
      unfold rowsHit colHit
      have hcell : ∀ r c, row + 1 ≤ r → y + r < 32 → c < 8 → x + c < 64 →
          (drawCols x (y + row) (mem.getD (Ival + row) 0) 0 disp vf).1.getD
              ((y + r) * 64 + (x + c)) 0 =
            disp.getD ((y + r) * 64 + (x + c)) 0 := by
        intro r c f2 f3 f5 f6
        rw [drawCols_getD x (y + row) _ 0 disp vf hx (by omega) hlen (y + r)
          (x + c) (by omega) (by omega)]
        rw [if_neg (show ¬(y + r = y + row ∧ x ≤ x + c ∧ x + c < x + 8 ∧
            0 ≤ x + c - x ∧
            spriteBit (mem.getD (Ival + row) 0) (x + c - x) = 1) by
              rintro ⟨g1, g2⟩
              omega)]
      have hIff1 : (∃ r, r < nib ∧ row + 1 ≤ r ∧ y + r < 32 ∧ ∃ c, c < 8 ∧
            x + c < 64 ∧ spriteBit (mem.getD (Ival + r) 0) c = 1 ∧
            (drawCols x (y + row) (mem.getD (Ival + row) 0) 0 disp vf).1.getD
              ((y + r) * 64 + (x + c)) 0 = 1)
          ↔ (∃ r, r < nib ∧ row + 1 ≤ r ∧ y + r < 32 ∧ ∃ c, c < 8 ∧
            x + c < 64 ∧ spriteBit (mem.getD (Ival + r) 0) c = 1 ∧
            disp.getD ((y + r) * 64 + (x + c)) 0 = 1) := by
        constructor
        · rintro ⟨r, f1, f2, f3, c, f5, f6, f7, f8⟩
          exact ⟨r, f1, f2, f3, c, f5, f6, f7,
            by rwa [hcell r c f2 f3 f5 f6] at f8⟩
        · rintro ⟨r, f1, f2, f3, c, f5, f6, f7, f8⟩
          exact ⟨r, f1, f2, f3, c, f5, f6, f7,
            by rwa [hcell r c f2 f3 f5 f6]⟩
      rw [if_congr hIff1 rfl rfl]
      by_cases hrow : ∃ c, c < 8 ∧ 0 ≤ c ∧ x + c < 64 ∧
          spriteBit (mem.getD (Ival + row) 0) c = 1 ∧
          disp.getD ((y + row) * 64 + (x + c)) 0 = 1
      · rw [if_pos hrow]
        obtain ⟨c, g1, g2, g3, g4, g5⟩ := hrow
        rw [if_pos (show ∃ r, r < nib ∧ row ≤ r ∧ y + r < 32 ∧ ∃ c2, c2 < 8 ∧
            x + c2 < 64 ∧ spriteBit (mem.getD (Ival + r) 0) c2 = 1 ∧
            disp.getD ((y + r) * 64 + (x + c2)) 0 = 1 from
            ⟨row, h1, le_rfl, by omega, c, g1, g3, g4, g5⟩)]
        split_ifs <;> rfl
      · rw [if_neg hrow]
        have hIff2 : (∃ r, r < nib ∧ row + 1 ≤ r ∧ y + r < 32 ∧ ∃ c, c < 8 ∧
              x + c < 64 ∧ spriteBit (mem.getD (Ival + r) 0) c = 1 ∧
              disp.getD ((y + r) * 64 + (x + c)) 0 = 1)
            ↔ (∃ r, r < nib ∧ row ≤ r ∧ y + r < 32 ∧ ∃ c, c < 8 ∧
              x + c < 64 ∧ spriteBit (mem.getD (Ival + r) 0) c = 1 ∧
              disp.getD ((y + r) * 64 + (x + c)) 0 = 1) := by
          constructor
          · rintro ⟨r, f1, f2, f3, f4⟩
            exact ⟨r, f1, by omega, f3, f4⟩
          · rintro ⟨r, f1, f2, f3, c, f5, f6, f7, f8⟩
            have hrne : r ≠ row := by
              intro he
              rw [he] at f7 f8
              exact hrow ⟨c, f5, by omega, f6, f7, f8⟩
            exact ⟨r, f1, by omega, f3, c, f5, f6, f7, f8⟩
        rw [if_congr hIff2 rfl rfl]
  · rw [if_neg h1, if_neg]
    unfold rowsHit
    rintro ⟨r, f1, f2, f3⟩
    omega
termination_by nib - row

end CatsChip8

namespace CatsChip8

/-- C4: executing `0xDXYN` computes origin x = V[X] mod 64, y = V[Y] mod
32, sets the dirty flag unconditionally, advances the program counter by
2, changes no other field than V, display and the dirty flag; every
in-grid cell is XOR-toggled exactly when it is covered by a set bit of
the clipped sprite (rows or columns falling outside the 64×32 grid are
skipped, never wrapped), and the flag register V\[0xF\] becomes 1 exactly
when some drawn bit lands on a lit cell (collision), 0 otherwise. -/
theorem c4_draw (s : Chip8) (rnd X Y N : Nat)
    (hdisp : s.display.length = DISPLAY_WIDTH * DISPLAY_HEIGHT)
    (hX : X < 16) (hY : Y < 16) (hN : N < 16)
    (hf : fetch s = 0xD000 + X * 256 + Y * 16 + N) :
    (Cycle s rnd).drawFlag = true ∧
    (Cycle s rnd).pc = (s.pc + 2) % 65536 ∧
    (Cycle s rnd).memory = s.memory ∧
    (Cycle s rnd).I = s.I ∧
    (Cycle s rnd).sp = s.sp ∧
    (Cycle s rnd).stack = s.stack ∧
    (Cycle s rnd).delay_timer = s.delay_timer ∧
    (Cycle s rnd).sound_timer = s.sound_timer ∧
    (Cycle s rnd).keypad = s.keypad ∧
    (Cycle s rnd).display.length = 2048 ∧
    (∀ cy, cy < 32 → ∀ cx, cx < 64 →
      (Cycle s rnd).display.getD (cy * 64 + cx) 0 =
        if rowsTouch s.memory s.I (s.V.getD X 0 % 64) (s.V.getD Y 0 % 32)
            0 N cy cx
        then s.display.getD (cy * 64 + cx) 0 ^^^ 1
        else s.display.getD (cy * 64 + cx) 0) ∧
    (Cycle s rnd).V = s.V.set 0xF
      (if rowsHit s.memory s.I (s.V.getD X 0 % 64) (s.V.getD Y 0 % 32)
          0 N s.display
       then 1 else 0) := by
  have hc := cycle_classD s rnd X Y N hX hY hN hf
  have hx64 : s.V.getD X 0 % 64 < 64 := Nat.mod_lt _ (by omega)
  have hy32 : s.V.getD Y 0 % 32 < 32 := Nat.mod_lt _ (by omega)
  have hlen2048 : s.display.length = 2048 := hdisp
  rw [hc]
  simp only [OpcodeDxxx, show DISPLAY_WIDTH = (64 : Nat) from rfl,
    show DISPLAY_HEIGHT = (32 : Nat) from rfl]
  refine ⟨trivial, trivial, trivial, trivial, trivial, trivial, trivial,
    trivial, trivial, ?_, ?_, ?_⟩
  · rw [drawRows_fst_length]
    exact hlen2048
  · intro cy hcy cx hcx
    rw [drawRows_getD _ _ _ _ _ _ _ _ hx64 hy32 hlen2048 cy cx hcy hcx]
  · rw [drawRows_snd _ _ _ _ _ _ _ _ hx64 hy32 hlen2048]

end CatsChip8

namespace CatsChip8

/-- The state of the C4 example: instruction `0xD012` at the program
counter, V\[0\] = 60, V\[1\] = 0, and a fully-set 8×2 sprite (0xFF 0xFF)
at the index register 0x202. -/
def drawExample : Chip8 :=
  progState [0xD0, 0x12, 0xFF, 0xFF] ((List.replicate 16 0).set 0 60)
    (List.replicate 16 false) 0x202

/-- The machine after the first example draw, rewound to re-execute the
same draw instruction. -/
def drawExample2 : Chip8 := { Cycle drawExample 0 with pc := 0x200 }

set_option maxRecDepth 8000 in
/-- Witness for C4 at the claim's example: the 8×2 fully-set sprite drawn
at (60, 0) lights only columns 60–63 of rows 0–1 (clipped, not wrapped),
leaves the flag register 0 on a first draw onto a clear screen, sets the
dirty flag, and redrawing the identical sprite at the same location sets
the flag register to 1 (collision). -/
theorem c4_witness :
    (Cycle drawExample 0).display.getD (0 * 64 + 60) 0 = 1 ∧
    (Cycle drawExample 0).display.getD (0 * 64 + 63) 0 = 1 ∧
    (Cycle drawExample 0).display.getD (0 * 64 + 59) 0 = 0 ∧
    (Cycle drawExample 0).display.getD (1 * 64 + 60) 0 = 1 ∧
    (Cycle drawExample 0).display.getD (2 * 64 + 60) 0 = 0 ∧
    (Cycle drawExample 0).V.getD 0xF 0 = 0 ∧
    (Cycle drawExample 0).drawFlag = true ∧
    (Cycle drawExample2 0).V.getD 0xF 0 = 1 := by
  have hdisp0 : drawExample.display.length = DISPLAY_WIDTH * DISPLAY_HEIGHT := by
    rw [show drawExample.display = List.replicate 2048 0 from rfl,
      List.length_replicate]
    rfl
  have hf0 : fetch drawExample = 0xD000 + 0 * 256 + 1 * 16 + 2 := by
    unfold drawExample
    rw [fetch_progState _ _ _ _ (by decide) (by decide)]
    decide
  obtain ⟨hA, hpc, hmem, hI, hsp, hstk, hdt, hst, hkp, hlen, hE, hV⟩ :=
    c4_draw drawExample 0 0 1 2 hdisp0 (by omega) (by omega) (by omega) hf0
  have hxv : drawExample.V.getD 0 0 % 64 = 60 := by decide
  have hyv : drawExample.V.getD 1 0 % 32 = 0 := by decide
  have hIv : drawExample.I = 0x202 := rfl
  simp only [hxv, hyv, hIv] at hE hV
  have hm0 : drawExample.memory.getD 514 0 = 0xFF := by
    have hh := progState_memory_getD [0xD0, 0x12, 0xFF, 0xFF]
      ((List.replicate 16 0).set 0 60) (List.replicate 16 false) 0x202 2
      (by decide) (by decide)
    rw [show (0x200 : Nat) + 2 = 514 from rfl] at hh
    unfold drawExample
    rw [hh]
    decide
  have hm1 : drawExample.memory.getD 515 0 = 0xFF := by
    have hh := progState_memory_getD [0xD0, 0x12, 0xFF, 0xFF]
      ((List.replicate 16 0).set 0 60) (List.replicate 16 false) 0x202 3
      (by decide) (by decide)
    rw [show (0x200 : Nat) + 3 = 515 from rfl] at hh
    unfold drawExample
    rw [hh]
    decide
  have hd0 : drawExample.display = List.replicate 2048 0 := rfl
  have hcell1 : (Cycle drawExample 0).display.getD (0 * 64 + 60) 0 = 1 := by
    have he1 := hE 0 (by omega) 60 (by omega)
    have ht1 : rowsTouch drawExample.memory 0x202 60 0 0 2 0 60 := by
      unfold rowsTouch
      refine ⟨0, by omega, by omega, by omega, by omega, by omega, ?_⟩
      rw [show (514 : Nat) + 0 = 514 from rfl, show (60 : Nat) - 60 = 0 from rfl,
        hm0]
      decide
    rw [if_pos ht1, hd0, getD_replicate_zero] at he1
    rw [he1]
    decide
  have hcell2 : (Cycle drawExample 0).display.getD (0 * 64 + 63) 0 = 1 := by
    have he2 := hE 0 (by omega) 63 (by omega)
    have ht2 : rowsTouch drawExample.memory 0x202 60 0 0 2 0 63 := by
      unfold rowsTouch
      refine ⟨0, by omega, by omega, by omega, by omega, by omega, ?_⟩
      rw [show (514 : Nat) + 0 = 514 from rfl, show (63 : Nat) - 60 = 3 from rfl,
        hm0]
      decide
    rw [if_pos ht2, hd0, getD_replicate_zero] at he2
    rw [he2]
    decide
  have hcell3 : (Cycle drawExample 0).display.getD (0 * 64 + 59) 0 = 0 := by
    have he3 := hE 0 (by omega) 59 (by omega)
    have ht3 : ¬ rowsTouch drawExample.memory 0x202 60 0 0 2 0 59 := by
      unfold rowsTouch
      rintro ⟨r, g1, g2, g3, g4, g5, g6⟩
      omega
    rw [if_neg ht3, hd0, getD_replicate_zero] at he3
    exact he3
  have hcell4 : (Cycle drawExample 0).display.getD (1 * 64 + 60) 0 = 1 := by
    have he4 := hE 1 (by omega) 60 (by omega)
    have ht4 : rowsTouch drawExample.memory 0x202 60 0 0 2 1 60 := by
      unfold rowsTouch
      refine ⟨1, by omega, by omega, by omega, by omega, by omega, ?_⟩
      rw [show (514 : Nat) + 1 = 515 from rfl, show (60 : Nat) - 60 = 0 from rfl,
        hm1]
      decide
    rw [if_pos ht4, hd0, getD_replicate_zero] at he4
    rw [he4]
    decide
  have hcell5 : (Cycle drawExample 0).display.getD (2 * 64 + 60) 0 = 0 := by
    have he5 := hE 2 (by omega) 60 (by omega)
    have ht5 : ¬ rowsTouch drawExample.memory 0x202 60 0 0 2 2 60 := by
      unfold rowsTouch
      rintro ⟨r, g1, g2, g3, g4, g5, g6⟩
      omega
    rw [if_neg ht5, hd0, getD_replicate_zero] at he5
    exact he5
  have hnr : ¬ rowsHit drawExample.memory 0x202 60 0 0 2 drawExample.display := by
    unfold rowsHit
    rintro ⟨r, g1, g2, g3, c, g5, g6, g7, g8⟩
    rw [hd0, getD_replicate_zero] at g8
    exact absurd g8 (by decide)
  rw [if_neg hnr] at hV
  have hvf0 : (Cycle drawExample 0).V.getD 0xF 0 = 0 := by
    rw [hV]
    decide
  have hsV : drawExample2.V = drawExample.V.set 0xF 0 := hV
  have hsMem : drawExample2.memory = drawExample.memory := hmem
  have hsI : drawExample2.I = 0x202 := hI.trans hIv
  have hdisp1 : drawExample2.display.length
      = DISPLAY_WIDTH * DISPLAY_HEIGHT := hlen
  have hf1 : fetch drawExample2 = 0xD000 + 0 * 256 + 1 * 16 + 2 := by
    have hf0b := hf0
    unfold fetch at hf0b ⊢
    rw [show drawExample2.pc = 0x200 from rfl, hsMem]
    rw [show drawExample.pc = 0x200 from rfl] at hf0b
    exact hf0b
  obtain ⟨_, _, _, _, _, _, _, _, _, _, _, hV2⟩ :=
    c4_draw drawExample2 0 0 1 2 hdisp1
      (by omega) (by omega) (by omega) hf1
  have hxv2 : drawExample2.V.getD 0 0 % 64 = 60 := by
    rw [hsV, getD_set_ne _ _ _ _ _ (by omega)]
    decide
  have hyv2 : drawExample2.V.getD 1 0 % 32 = 0 := by
    rw [hsV, getD_set_ne _ _ _ _ _ (by omega)]
    decide
  simp only [hxv2, hyv2, hsI, hsMem] at hV2
  have hhit : rowsHit drawExample.memory 0x202 60 0 0 2
      drawExample2.display := by
    unfold rowsHit
    refine ⟨0, by omega, by omega, by omega, 0, by omega, by omega, ?_, ?_⟩
    · rw [show (514 : Nat) + 0 = 514 from rfl, hm0]
      decide
    · rw [show ((0 : Nat) + 0) * 64 + (60 + 0) = 0 * 64 + 60 from rfl]
      exact hcell1
  rw [if_pos hhit] at hV2
  have hvf1 : (Cycle drawExample2 0).V.getD 0xF 0 = 1 := by
    rw [hV2, hsV]
    have hlen16 : (drawExample.V.set 0xF 0).length = 16 := by decide
    rw [getD_set_self _ _ _ _ (by rw [hlen16]; omega)]
  exact ⟨hcell1, hcell2, hcell3, hcell4, hcell5, hvf0, hA, hvf1⟩

/-! ## C9 / C10: memory and keypad access patterns -/

/-- The memory addresses the draw row loop reads (`memory[I + row]` for
each row actually processed before the count or the bottom of the
display stops it); the base address is the unmasked index register. -/
def dxxxReadAddrs (Ival y row nib : Nat) : List Nat :=
  if row < nib then
    if DISPLAY_HEIGHT ≤ y + row then []
    else (Ival + row) :: dxxxReadAddrs Ival y (row + 1) nib
  else []
termination_by nib - row

/-- The memory addresses opcode 0xFX33 writes. -/
def fx33WriteAddrs (Ival : Nat) : List Nat := [Ival, Ival + 1, Ival + 2]

/-- The memory addresses the 0xFX55 / 0xFX65 register-block loops
access: `I + i` for `i` from `i` to `reg` inclusive. -/
def regsAddrs (Ival i reg : Nat) : List Nat :=
  if i ≤ reg then (Ival + i) :: regsAddrs Ival (i + 1) reg else []
termination_by reg + 1 - i

theorem dxxxReadAddrs_eq (Ival y row nib : Nat) (hy : y < 32) :
    dxxxReadAddrs Ival y row nib =
      List.range' (Ival + row) (min nib (32 - y) - row) := by
  have hDH : DISPLAY_HEIGHT = 32 := rfl
  unfold dxxxReadAddrs
  by_cases h1 : row < nib
  · by_cases h2 : DISPLAY_HEIGHT ≤ y + row
    · rw [if_pos h1, if_pos h2, show min nib (32 - y) - row = 0 from by omega,
        List.range'_zero]
    · rw [if_pos h1, if_neg h2, dxxxReadAddrs_eq Ival y (row + 1) nib hy,
        show min nib (32 - y) - row = (min nib (32 - y) - (row + 1)) + 1
          from by omega,
        List.range'_succ, Nat.add_assoc]
  · rw [if_neg h1, show min nib (32 - y) - row = 0 from by omega,
      List.range'_zero]
termination_by nib - row

theorem regsAddrs_eq (Ival i reg : Nat) :
    regsAddrs Ival i reg = List.range' (Ival + i) (reg + 1 - i) := by
  unfold regsAddrs
  by_cases h1 : i ≤ reg
  · rw [if_pos h1, regsAddrs_eq Ival (i + 1) reg,
      show reg + 1 - i = (reg + 1 - (i + 1)) + 1 from by omega,
      List.range'_succ, Nat.add_assoc]
  · rw [if_neg h1, show reg + 1 - i = 0 from by omega,
      List.range'_zero]
termination_by reg + 1 - i

theorem range'_bounds_iff (s n c : Nat) :
    (∀ a ∈ List.range' s n, a < c) ↔ (n = 0 ∨ s + (n - 1) < c) := by
  simp only [List.mem_range']
  constructor
  · intro h
    rcases Nat.eq_zero_or_pos n with h0 | h0
    · exact Or.inl h0
    · exact Or.inr (h (s + (n - 1)) ⟨n - 1, by omega, by omega⟩)
  · rintro (h | h) a ⟨i, hi, rfl⟩
    · omega
    · omega

theorem drawRows_frame (mem1 mem2 : List Nat) (Ival x y row nib : Nat)
    (disp : List Nat) (vf : Nat)
    (h : ∀ a ∈ dxxxReadAddrs Ival y row nib, mem1.getD a 0 = mem2.getD a 0) :
    drawRows mem1 Ival x y row nib disp vf =
      drawRows mem2 Ival x y row nib disp vf := by
  unfold drawRows
  dsimp only
  by_cases h1 : row < nib
  · by_cases h2 : DISPLAY_HEIGHT ≤ y + row
    · simp only [if_pos h1, if_pos h2]
    · simp only [if_pos h1, if_neg h2]
      unfold dxxxReadAddrs at h
      rw [if_pos h1, if_neg h2] at h
      rw [h (Ival + row) (List.mem_cons_self _ _)]
      exact drawRows_frame mem1 mem2 Ival x y (row + 1) nib _ _
        (fun a ha => h a (List.mem_cons_of_mem _ ha))
  · simp only [if_neg h1]
termination_by nib - row

theorem loadRegs_frame (V mem1 mem2 : List Nat) (Ival i reg : Nat)
    (h : ∀ a ∈ regsAddrs Ival i reg, mem1.getD a 0 = mem2.getD a 0) :
    loadRegs V mem1 Ival i reg = loadRegs V mem2 Ival i reg := by
  unfold loadRegs
  by_cases h1 : i ≤ reg
  · simp only [if_pos h1]
    unfold regsAddrs at h
    rw [if_pos h1] at h
    rw [h (Ival + i) (List.mem_cons_self _ _)]
    exact loadRegs_frame _ mem1 mem2 Ival (i + 1) reg
      (fun a ha => h a (List.mem_cons_of_mem _ ha))
  · simp only [if_neg h1]
termination_by reg + 1 - i

theorem storeRegs_outside (mem V : List Nat) (Ival i reg a : Nat)
    (ha : a ∉ regsAddrs Ival i reg) :
    (storeRegs mem V Ival i reg).getD a 0 = mem.getD a 0 := by
  unfold storeRegs
  by_cases h1 : i ≤ reg
  · rw [if_pos h1]
    unfold regsAddrs at ha
    rw [if_pos h1] at ha
    rw [storeRegs_outside _ _ Ival (i + 1) reg a
        (fun hmem => ha (List.mem_cons_of_mem _ hmem)),
      getD_set_ne _ _ _ _ _
        (by intro he; exact ha (by rw [← he]; exact List.mem_cons_self _ _))]
  · rw [if_neg h1]
termination_by reg + 1 - i

theorem opcodeF33_eq (s : Chip8) (X : Nat) :
    OpcodeFxxx s X 0x33 = { s with memory :=
      ((s.memory.set s.I (s.V.getD X 0 / 100)).set (s.I + 1)
        (s.V.getD X 0 / 10 % 10)).set (s.I + 2) (s.V.getD X 0 % 10) } := by
  simp only [OpcodeFxxx]
  norm_num

theorem opcodeF33_outside (s : Chip8) (X a : Nat)
    (ha : a ∉ fx33WriteAddrs s.I) :
    (OpcodeFxxx s X 0x33).memory.getD a 0 = s.memory.getD a 0 := by
  simp only [fx33WriteAddrs, List.mem_cons, List.not_mem_nil, or_false,
    not_or] at ha
  obtain ⟨ha1, ha2, ha3⟩ := ha
  rw [opcodeF33_eq]
  dsimp only
  rw [getD_set_ne _ _ _ _ _ (fun he => ha3 he.symm),
    getD_set_ne _ _ _ _ _ (fun he => ha2 he.symm),
    getD_set_ne _ _ _ _ _ (fun he => ha1 he.symm)]

/-- C9: the draw sprite reads, the BCD writes and the register-block
loads/stores address memory from the unmasked index register: the draw
reads exactly `I + r` for the processed rows, BCD writes `I, I+1, I+2`,
the block loops access `I + 0 .. I + X`; each access set lies inside the
4096-byte memory exactly when `I` plus the highest used offset is below
4096; the draw and load results depend on memory only through those
addresses, and the store and BCD write nothing outside them. -/
theorem c9_memory_access_ranges (Ival y nib X : Nat) (hy : y < 32) :
    (dxxxReadAddrs Ival y 0 nib =
      (List.range (min nib (32 - y))).map (fun r => Ival + r)) ∧
    ((∀ a ∈ dxxxReadAddrs Ival y 0 nib, a < 4096) ↔
      (min nib (32 - y) = 0 ∨ Ival + (min nib (32 - y) - 1) < 4096)) ∧
    ((∀ a ∈ fx33WriteAddrs Ival, a < 4096) ↔ Ival + 2 < 4096) ∧
    (regsAddrs Ival 0 X = (List.range (X + 1)).map (fun r => Ival + r)) ∧
    ((∀ a ∈ regsAddrs Ival 0 X, a < 4096) ↔ Ival + X < 4096) ∧
    (∀ mem1 mem2 x disp vf,
      (∀ a ∈ dxxxReadAddrs Ival y 0 nib, mem1.getD a 0 = mem2.getD a 0) →
      drawRows mem1 Ival x y 0 nib disp vf =
        drawRows mem2 Ival x y 0 nib disp vf) ∧
    (∀ V mem1 mem2,
      (∀ a ∈ regsAddrs Ival 0 X, mem1.getD a 0 = mem2.getD a 0) →
      loadRegs V mem1 Ival 0 X = loadRegs V mem2 Ival 0 X) ∧
    (∀ mem V a, a ∉ regsAddrs Ival 0 X →
      (storeRegs mem V Ival 0 X).getD a 0 = mem.getD a 0) ∧
    (∀ s : Chip8, s.I = Ival → ∀ a, a ∉ fx33WriteAddrs Ival →
      (OpcodeFxxx s X 0x33).memory.getD a 0 = s.memory.getD a 0) := by
  refine ⟨?_, ?_, ?_, ?_, ?_, ?_, ?_, ?_, ?_⟩
  · rw [dxxxReadAddrs_eq Ival y 0 nib hy, List.range'_eq_map_range]
    simp only [Nat.add_zero, Nat.sub_zero]
  · rw [dxxxReadAddrs_eq Ival y 0 nib hy, range'_bounds_iff]
    omega
  · simp only [fx33WriteAddrs, List.mem_cons, List.not_mem_nil, or_false]
    constructor
    · intro h
      exact h (Ival + 2) (Or.inr (Or.inr rfl))
    · rintro h a (rfl | rfl | rfl)
      · omega
      · omega
      · omega
  · rw [regsAddrs_eq, List.range'_eq_map_range]
    simp only [Nat.add_zero, Nat.sub_zero]
  · rw [regsAddrs_eq, range'_bounds_iff]
    omega
  · exact fun mem1 mem2 x disp vf h =>
      drawRows_frame mem1 mem2 Ival x y 0 nib disp vf h
  · exact fun V mem1 mem2 h => loadRegs_frame V mem1 mem2 Ival 0 X h
  · exact fun mem V a ha => storeRegs_outside mem V Ival 0 X a ha
  · intro s hs a ha
    rw [← hs] at ha
    exact opcodeF33_outside s X a ha

/-- Witness for C9 at concrete values: with I = 4090 a 3-row draw reads
4090, 4091, 4092 (all in bounds since 4090 + 2 < 4096), while a 0xFX55
with X = 7 would reach 4090 + 7 = 4097, out of bounds. -/
theorem c9_witness :
    dxxxReadAddrs 4090 0 0 3 =
      (List.range (min 3 (32 - 0))).map (fun r => 4090 + r) ∧
    ((∀ a ∈ dxxxReadAddrs 4090 0 0 3, a < 4096) ↔
      (min 3 (32 - 0) = 0 ∨ 4090 + (min 3 (32 - 0) - 1) < 4096)) ∧
    ((∀ a ∈ regsAddrs 4090 0 7, a < 4096) ↔ 4090 + 7 < 4096) ∧
    ¬ (∀ a ∈ regsAddrs 4090 0 7, a < 4096) := by
  have h := c9_memory_access_ranges 4090 0 3 7 (by omega)
  refine ⟨h.1, h.2.1, h.2.2.2.2.1, ?_⟩
  rw [h.2.2.2.2.1]
  omega

/-- The keypad indices `OpcodeExxx` reads: `V[reg]`, exactly when the
sub-opcode byte is 0x9E or 0xA1 (no bounds check is applied). -/
def exxxKeypadReads (s : Chip8) (reg nib : Nat) : List Nat :=
  if nib = 0x9E then [s.V.getD reg 0]
  else if nib = 0xA1 then [s.V.getD reg 0]
  else []

/-- The keypad indices the 0xFX0A scan can read: 0 to 15. -/
def fx0aKeypadReads : List Nat := List.range 16

theorem findFirstKey_frame (kp1 kp2 : List Bool)
    (h : ∀ i, i < 16 → kp1.getD i false = kp2.getD i false) (j : Nat) :
    findFirstKey kp1 j = findFirstKey kp2 j := by
  unfold findFirstKey
  by_cases h1 : j < 16
  · rw [if_pos h1, if_pos h1, h j h1]
    by_cases h2 : kp2.getD j false = true
    · rw [if_pos h2, if_pos h2]
    · rw [if_neg h2, if_neg h2]
      exact findFirstKey_frame kp1 kp2 h (j + 1)
  · rw [if_neg h1, if_neg h1]
termination_by 16 - j

/-- C10: the skip opcodes 0xEX9E / 0xEXA1 index the 16-entry input latch
with the full 8-bit value of V\[X\] and no bounds check: the access is in
bounds exactly when `V[X] ≤ 0xF` (or the sub-opcode is unrecognized and
nothing is read), and the handler's outcome depends on the latch only
through that one index; the 0xFX0A wait only ever scans indices 0–15,
in bounds for every state. -/
theorem c10_keypad_access (s : Chip8) (reg nib : Nat) :
    ((∀ i ∈ exxxKeypadReads s reg nib, i < 16) ↔
      ((nib ≠ 0x9E ∧ nib ≠ 0xA1) ∨ s.V.getD reg 0 ≤ 0xF)) ∧
    (∀ i ∈ fx0aKeypadReads, i < 16) ∧
    (∀ kp1 kp2 : List Bool,
      kp1.getD (s.V.getD reg 0) false = kp2.getD (s.V.getD reg 0) false →
      (OpcodeExxx { s with keypad := kp1 } reg nib).pc =
        (OpcodeExxx { s with keypad := kp2 } reg nib).pc) ∧
    (∀ kp1 kp2 : List Bool,
      (∀ i, i < 16 → kp1.getD i false = kp2.getD i false) →
      ∀ j, findFirstKey kp1 j = findFirstKey kp2 j) := by
  refine ⟨?_, ?_, ?_, ?_⟩
  · unfold exxxKeypadReads
    by_cases h9E : nib = 0x9E
    · rw [if_pos h9E]
      simp only [List.mem_cons, List.not_mem_nil, or_false, h9E]
      constructor
      · intro h
        right
        have := h (s.V.getD reg 0) rfl
        omega
      · rintro (⟨h1, h2⟩ | h1) a rfl
        · exact absurd rfl h1
        · omega
    · rw [if_neg h9E]
      by_cases hA1 : nib = 0xA1
      · rw [if_pos hA1]
        simp only [List.mem_cons, List.not_mem_nil, or_false, hA1]
        constructor
        · intro h
          right
          have := h (s.V.getD reg 0) rfl
          omega
        · rintro (⟨h1, h2⟩ | h1) a rfl
          · exact absurd rfl h2
          · omega
      · rw [if_neg hA1]
        simp only [List.not_mem_nil, false_implies, implies_true, true_iff]
        exact Or.inl ⟨h9E, hA1⟩
  · intro i hi
    exact List.mem_range.mp hi
  · intro kp1 kp2 h
    simp only [OpcodeExxx]
    rw [h]
    split_ifs <;> rfl
  · exact fun kp1 kp2 h j => findFirstKey_frame kp1 kp2 h j

end CatsChip8
